import Mathlib

/-!
Verification of the single-flight token-refresh coordinator
(`configureRefreshFetch`) and of the JSON transport adapter (`fetchJSON`)
of the proactive-fetch repository.

The coordinator is an async JavaScript function running under
single-threaded cooperative concurrency: code runs atomically between
awaits.  We embed it as a small-step machine.  Each event runs one
invocation of the wrapped function from one suspension point to the
next, exactly mirroring the source:

  - `Event.start i`: invocation i runs its synchronous prefix: it reads
    `refreshingTokenPromise` (the bystander check at the top of the
    wrapped function); if a handle is pending it attaches to it,
    otherwise it issues its first transport call and suspends on it.
  - `Event.fetchSettle i`: the transport call invocation i is suspended
    on settles; the invocation then runs synchronously to its next
    suspension point (classifying the failure, possibly installing the
    refresh handle and starting `refreshToken` in that same step, with
    no suspension between the null check and the installation).
  - `Event.refreshSettle`: `refreshToken` settles; the `.then`/`.catch`
    callback clears `refreshingTokenPromise` back to null and settles
    the wrapper promise in one atomic step; all awaiting invocations
    become resumable (their continuations run as later events).
  - `Event.resume i`: the continuation of invocation i, scheduled when
    the refresh handle settled, runs to its next suspension point.

Transport and refresh outcomes are supplied by oracles in `Env`, so all
interleavings and all success/failure patterns are covered.  The state
carries instrumentation (invocation counters, a transport-call log, the
bystander flag, the refresh outcome each call observed) used to state
the claims.
-/

namespace RF

/-- Outcome of an asynchronous operation: a resolved value or a rejection
value (both abstracted as naturals). -/
inductive Outcome where
  | ok (v : Nat)
  | err (e : Nat)
deriving DecidableEq, Repr

/-- Whether an outcome is a success. -/
def oOk : Outcome → Bool
  | .ok _ => true
  | .err _ => false

/-- Control point of one invocation of the wrapped function, i.e. which
suspension point (await) it is currently stopped at, or its final result.
The b-phases are the bystander branch (a pending handle existed on
entry); the m-phases are the main branch. -/
inductive Phase where
  /-- The invocation has not yet run its synchronous prefix. -/
  | entry
  /-- Suspended on `await refreshingTokenPromise` in the bystander branch. -/
  | bAwaitRefresh
  /-- The awaited handle settled (with success iff the flag is true); the
  continuation has been scheduled but has not run yet. -/
  | bResume (rOk : Bool)
  /-- Bystander, refresh succeeded: suspended on the transport call inside
  the try block. -/
  | bFetchTry
  /-- Bystander: suspended on the transport call inside the catch block. -/
  | bFetchCatch
  /-- Main branch: suspended on the first transport call. -/
  | mFetchFirst
  /-- Main branch: first transport call failed with e, classified as an
  auth failure; suspended on `await refreshingTokenPromise`. -/
  | mAwaitRefresh (e : Nat)
  /-- The awaited handle settled (success iff flag); continuation scheduled
  but not yet run; e is the original transport error. -/
  | mResume (e : Nat) (rOk : Bool)
  /-- Main branch: suspended on the retry transport call; e is the original
  transport error. -/
  | mRetry (e : Nat)
  /-- The invocation settled with this outcome. -/
  | done (r : Outcome)
deriving DecidableEq, Repr

/-- Scheduler events: run the prefix of a call, settle the transport call a
call is suspended on, settle the pending refresh, or run a continuation
scheduled by the refresh settlement. -/
inductive Event where
  | start (i : Nat)
  | fetchSettle (i : Nat)
  | refreshSettle
  | resume (i : Nat)
deriving DecidableEq, Repr

/-- Environment: the number of concurrent invocations, each invocation's
(url, options) argument pair (abstracted), and oracles giving the outcome
of every transport call (call i's k-th transport call), the
`shouldRefreshToken` predicate, and the outcome of every `refreshToken`
invocation. -/
structure Env where
  n : Nat
  args : Nat → Nat
  fetchO : Nat → Nat → Outcome
  should : Nat → Bool
  refreshO : Nat → Outcome

/-- Global state: each call's phase, the `refreshingTokenPromise` field
(true iff a handle is pending), and instrumentation: how many times
`refreshToken` was invoked, per-call transport-call and
`shouldRefreshToken` counts, whether a call entered while a handle was
pending (`byst`), whether a call installed the handle (`triggered`), the
refresh outcome delivered to a call by a settlement (`obsRefresh`), and
the log of transport calls `(call, argument)` in issue order. -/
structure State where
  phase : Nat → Phase
  handle : Bool
  refreshCount : Nat
  fetchCount : Nat → Nat
  shouldCount : Nat → Nat
  byst : Nat → Bool
  triggered : Nat → Bool
  obsRefresh : Nat → Option Bool
  fetchLog : List (Nat × Nat)

/-- Pointwise update of a function on naturals. -/
def updF {α : Type} (f : Nat → α) (i : Nat) (v : α) : Nat → α :=
  fun j => if j = i then v else f j

theorem updF_self {α : Type} (f : Nat → α) (i : Nat) (v : α) :
    updF f i v i = v := by
  simp [updF]

theorem updF_ne {α : Type} (f : Nat → α) (i : Nat) (v : α) (j : Nat)
    (h : j ≠ i) : updF f i v j = f j := by
  simp [updF, h]

/-- Initial state: no call has run, no handle pending, empty counters. -/
def init : State where
  phase := fun _ => .entry
  handle := false
  refreshCount := 0
  fetchCount := fun _ => 0
  shouldCount := fun _ => 0
  byst := fun _ => false
  triggered := fun _ => false
  obsRefresh := fun _ => none
  fetchLog := []

/-- Issue a transport call for invocation i (always with i's own url and
options, as in the source where every call site is `fetch(url, options)`
on the closure's parameters) and suspend in phase p. -/
def invokeFetch (env : Env) (s : State) (i : Nat) (p : Phase) : State :=
  { s with
    phase := updF s.phase i p
    fetchCount := updF s.fetchCount i (s.fetchCount i + 1)
    fetchLog := s.fetchLog ++ [(i, env.args i)] }

/-- Map applied to every phase when the refresh handle settles: awaiting
calls become resumable carrying the settlement outcome; others unchanged. -/
def settleP (b : Bool) : Phase → Phase
  | .bAwaitRefresh => .bResume b
  | .mAwaitRefresh e => .mResume e b
  | p => p

/-- True for the phases suspended on the refresh handle. -/
def isAwaitP : Phase → Bool
  | .bAwaitRefresh => true
  | .mAwaitRefresh _ => true
  | _ => false

/-- Observed-refresh-outcome update when the handle settles: every call
suspended on the handle records the settlement outcome. -/
def settleObs (b : Bool) : Phase → Option Bool → Option Bool
  | .bAwaitRefresh, _ => some b
  | .mAwaitRefresh _, _ => some b
  | _, o => o

/-- True for the phases whose continuation was scheduled by a refresh
settlement but has not yet run. -/
def isResumeP : Phase → Bool
  | .bResume _ => true
  | .mResume _ _ => true
  | _ => false

/-- One scheduler step.  Faithful transcription of the wrapped function
returned by `configureRefreshFetch`:

  - start: the bystander check `refreshingTokenPromise !== null` and, in
    the main branch, the first `fetch(url, options)`;
  - fetchSettle at mFetchFirst: the catch block: `shouldRefreshToken`,
    and if it holds, the null check plus installation of the handle and
    synchronous start of `refreshToken()` (one step, no suspension
    between check and installation), then `await refreshingTokenPromise`;
  - fetchSettle at bFetchTry: a bystander's try-block fetch settles; on
    rejection the catch block issues a second fetch;
  - fetchSettle at bFetchCatch / mRetry: those fetches settle; a failed
    retry in the main branch rethrows the original error;
  - refreshSettle: the `.then`/`.catch` callback sets
    `refreshingTokenPromise = null` and settles the wrapper promise;
  - resume: an awaiter's continuation runs (issue the follow-up fetch, or
    rethrow the original error in the main branch when the refresh
    failed). -/
def step (env : Env) (s : State) : Event → Option State
  | .start i =>
    if i < env.n then
      match s.phase i with
      | .entry =>
        if s.handle then
          some { s with
                 phase := updF s.phase i .bAwaitRefresh
                 byst := updF s.byst i true }
        else
          some (invokeFetch env s i .mFetchFirst)
      | _ => none
    else none
  | .fetchSettle i =>
    if i < env.n then
      match s.phase i with
      | .mFetchFirst =>
        match env.fetchO i (s.fetchCount i - 1) with
        | .ok v => some { s with phase := updF s.phase i (.done (.ok v)) }
        | .err e =>
          if env.should e then
            if s.handle then
              some { s with
                     phase := updF s.phase i (.mAwaitRefresh e)
                     shouldCount := updF s.shouldCount i (s.shouldCount i + 1) }
            else
              some { s with
                     phase := updF s.phase i (.mAwaitRefresh e)
                     shouldCount := updF s.shouldCount i (s.shouldCount i + 1)
                     handle := true
                     refreshCount := s.refreshCount + 1
                     triggered := updF s.triggered i true }
          else
            some { s with
                   phase := updF s.phase i (.done (.err e))
                   shouldCount := updF s.shouldCount i (s.shouldCount i + 1) }
      | .bFetchTry =>
        match env.fetchO i (s.fetchCount i - 1) with
        | .ok v => some { s with phase := updF s.phase i (.done (.ok v)) }
        | .err _ => some (invokeFetch env s i .bFetchCatch)
      | .bFetchCatch =>
        some { s with phase := updF s.phase i (.done (env.fetchO i (s.fetchCount i - 1))) }
      | .mRetry e =>
        match env.fetchO i (s.fetchCount i - 1) with
        | .ok v => some { s with phase := updF s.phase i (.done (.ok v)) }
        | .err _ => some { s with phase := updF s.phase i (.done (.err e)) }
      | _ => none
    else none
  | .refreshSettle =>
    if s.handle then
      some { s with
             handle := false
             phase := fun j => settleP (oOk (env.refreshO (s.refreshCount - 1))) (s.phase j)
             obsRefresh := fun j =>
               settleObs (oOk (env.refreshO (s.refreshCount - 1))) (s.phase j)
                 (s.obsRefresh j) }
    else none
  | .resume i =>
    if i < env.n then
      match s.phase i with
      | .bResume true => some (invokeFetch env s i .bFetchTry)
      | .bResume false => some (invokeFetch env s i .bFetchCatch)
      | .mResume e true => some (invokeFetch env s i (.mRetry e))
      | .mResume e false => some { s with phase := updF s.phase i (.done (.err e)) }
      | _ => none
    else none

/-- Run a list of scheduler events. -/
def run (env : Env) (s : State) : List Event → Option State
  | [] => some s
  | ev :: t => (step env s ev).bind (fun s1 => run env s1 t)

theorem run_append (env : Env) (s : State) (t1 t2 : List Event) :
    run env s (t1 ++ t2) = (run env s t1).bind (fun s1 => run env s1 t2) := by
  induction t1 generalizing s with
  | nil => simp [run]
  | cons ev t ih =>
    simp only [List.cons_append, run]
    cases step env s ev with
    | none => simp
    | some s1 => simp [ih]

/-- Allowed final configurations of one invocation (result together with
the instrumentation counters), one disjunct per terminal path of the
wrapped function:
  main branch first fetch ok; main branch non-auth failure; main branch
  auth failure with failed refresh (original error, no retry); main
  branch auth failure with successful refresh and one retry (retry
  failure rethrows the original error); bystander with successful
  refresh and first fetch ok; bystander with failed refresh (one fetch,
  its outcome); bystander with successful refresh whose first fetch
  failed (second fetch issued, its outcome). -/
def doneInvAt (env : Env) (i : Nat) (fc sc : Nat) (bys tr : Bool)
    (obs : Option Bool) (r : Outcome) : Prop :=
  (bys = false ∧ fc = 1 ∧ sc = 0 ∧ tr = false ∧ obs = none ∧
    ∃ v, env.fetchO i 0 = .ok v ∧ r = .ok v) ∨
  (bys = false ∧ fc = 1 ∧ sc = 1 ∧ tr = false ∧ obs = none ∧
    ∃ e, env.fetchO i 0 = .err e ∧ env.should e = false ∧ r = .err e) ∨
  (bys = false ∧ fc = 1 ∧ sc = 1 ∧ obs = some false ∧
    ∃ e, env.fetchO i 0 = .err e ∧ env.should e = true ∧ r = .err e) ∨
  (bys = false ∧ fc = 2 ∧ sc = 1 ∧ obs = some true ∧
    ∃ e, env.fetchO i 0 = .err e ∧ env.should e = true ∧
      ((∃ v, env.fetchO i 1 = .ok v ∧ r = .ok v) ∨
       (∃ e2, env.fetchO i 1 = .err e2 ∧ r = .err e))) ∨
  (bys = true ∧ fc = 1 ∧ sc = 0 ∧ tr = false ∧ obs = some true ∧
    ∃ v, env.fetchO i 0 = .ok v ∧ r = .ok v) ∨
  (bys = true ∧ fc = 1 ∧ sc = 0 ∧ tr = false ∧ obs = some false ∧
    r = env.fetchO i 0) ∨
  (bys = true ∧ fc = 2 ∧ sc = 0 ∧ tr = false ∧ obs = some true ∧
    (∃ e, env.fetchO i 0 = .err e) ∧ r = env.fetchO i 1)

/-- Invariant of one invocation, by phase: the counters and flags each
suspension point of the wrapped function can be reached with, and which
oracle outcomes were consumed on the way.  hd is the global pending-handle
field: an invocation suspended on the refresh handle can only exist while
the handle is pending. -/
def callInvAt (env : Env) (i : Nat) (p : Phase) (hd : Bool) (fc sc : Nat)
    (bys tr : Bool) (obs : Option Bool) : Prop :=
  match p with
  | .entry => fc = 0 ∧ sc = 0 ∧ bys = false ∧ tr = false ∧ obs = none
  | .bAwaitRefresh =>
      hd = true ∧ bys = true ∧ fc = 0 ∧ sc = 0 ∧ tr = false ∧ obs = none
  | .bResume b => bys = true ∧ fc = 0 ∧ sc = 0 ∧ tr = false ∧ obs = some b
  | .bFetchTry => bys = true ∧ fc = 1 ∧ sc = 0 ∧ tr = false ∧ obs = some true
  | .bFetchCatch => bys = true ∧ sc = 0 ∧ tr = false ∧
      ((obs = some false ∧ fc = 1) ∨
       (obs = some true ∧ fc = 2 ∧ ∃ e, env.fetchO i 0 = .err e))
  | .mFetchFirst => bys = false ∧ fc = 1 ∧ sc = 0 ∧ tr = false ∧ obs = none
  | .mAwaitRefresh e => hd = true ∧ bys = false ∧ fc = 1 ∧ sc = 1 ∧
      env.fetchO i 0 = .err e ∧ env.should e = true ∧ obs = none
  | .mResume e b => bys = false ∧ fc = 1 ∧ sc = 1 ∧
      env.fetchO i 0 = .err e ∧ env.should e = true ∧ obs = some b
  | .mRetry e => bys = false ∧ fc = 2 ∧ sc = 1 ∧
      env.fetchO i 0 = .err e ∧ env.should e = true ∧ obs = some true
  | .done r => doneInvAt env i fc sc bys tr obs r

/-- Invariant of invocation i in state s. -/
def callInv (env : Env) (s : State) (i : Nat) : Prop :=
  callInvAt env i (s.phase i) s.handle (s.fetchCount i) (s.shouldCount i)
    (s.byst i) (s.triggered i) (s.obsRefresh i)

theorem callInvAt_handle (env : Env) (i : Nat) (p : Phase) (h1 h2 : Bool)
    (fc sc : Nat) (bys tr : Bool) (obs : Option Bool)
    (hh : h1 = true → h2 = true) :
    callInvAt env i p h1 fc sc bys tr obs →
    callInvAt env i p h2 fc sc bys tr obs := by
  cases p <;> simp only [callInvAt] <;> intro h <;> tauto

/-- Frame rule: a call whose per-call fields are unchanged keeps its
invariant, as long as a pending handle stays pending. -/
theorem callInv_frame (env : Env) (s s' : State) (j : Nat)
    (hp : s'.phase j = s.phase j) (hf : s'.fetchCount j = s.fetchCount j)
    (hs : s'.shouldCount j = s.shouldCount j) (hb : s'.byst j = s.byst j)
    (ht : s'.triggered j = s.triggered j) (ho : s'.obsRefresh j = s.obsRefresh j)
    (hh : s.handle = true → s'.handle = true)
    (h : callInv env s j) : callInv env s' j := by
  unfold callInv at h ⊢
  rw [hp, hf, hs, hb, ht, ho]
  exact callInvAt_handle env j (s.phase j) s.handle s'.handle _ _ _ _ _ hh h

/-- The start event preserves the per-call invariant. -/
theorem stepStart_callInv (env : Env) (s s' : State) (i : Nat)
    (hstep : step env s (.start i) = some s') (hinv : ∀ j, callInv env s j) :
    ∀ j, callInv env s' j := by
  have hi := hinv i
  unfold callInv at hi
  simp only [step] at hstep
  split at hstep
  case isFalse => exact absurd hstep (by simp)
  case isTrue hn =>
    split at hstep
    case h_2 => exact absurd hstep (by simp)
    case h_1 hp =>
      rw [hp] at hi
      simp only [callInvAt] at hi
      obtain ⟨hfc, hsc, hby, htr, hob⟩ := hi
      split at hstep
      case isTrue hh =>
        injection hstep with hs'
        subst hs'
        intro j
        by_cases hj : j = i
        · subst hj
          unfold callInv
          dsimp only
          rw [updF_self, updF_self]
          simp only [callInvAt]
          exact ⟨hh, trivial, hfc, hsc, htr, hob⟩
        · refine callInv_frame env s _ j ?_ rfl rfl ?_ rfl rfl (fun h => h) (hinv j)
          · exact updF_ne _ _ _ _ hj
          · exact updF_ne _ _ _ _ hj
      case isFalse hh =>
        injection hstep with hs'
        subst hs'
        intro j
        by_cases hj : j = i
        · subst hj
          unfold callInv invokeFetch
          dsimp only
          rw [updF_self, updF_self]
          simp only [callInvAt]
          exact ⟨hby, by omega, hsc, htr, hob⟩
        · refine callInv_frame env s _ j ?_ ?_ rfl rfl rfl rfl (fun h => h) (hinv j)
          · exact updF_ne _ _ _ _ hj
          · exact updF_ne _ _ _ _ hj

/-- The fetchSettle event preserves the per-call invariant. -/
theorem stepFetch_callInv (env : Env) (s s' : State) (i : Nat)
    (hstep : step env s (.fetchSettle i) = some s') (hinv : ∀ j, callInv env s j) :
    ∀ j, callInv env s' j := by
  have hi := hinv i
  unfold callInv at hi
  simp only [step] at hstep
  split at hstep
  case isFalse => exact absurd hstep (by simp)
  case isTrue hn =>
    split at hstep
    case h_5 => exact absurd hstep (by simp)
    case h_1 hp =>
      rw [hp] at hi
      simp only [callInvAt] at hi
      obtain ⟨hby, hfc, hsc, htr, hob⟩ := hi
      rw [hfc] at hstep
      norm_num at hstep
      split at hstep
      case h_1 v hm =>
        injection hstep with hs'
        subst hs'
        intro j
        by_cases hj : j = i
        · subst hj
          unfold callInv
          dsimp only
          rw [updF_self]
          simp only [callInvAt, doneInvAt]
          exact Or.inl ⟨hby, hfc, hsc, htr, hob, v, hm, rfl⟩
        · exact callInv_frame env s _ j (updF_ne _ _ _ _ hj) rfl rfl rfl rfl rfl
            (fun h => h) (hinv j)
      case h_2 e hm =>
        split at hstep
        case isTrue hsh =>
          split at hstep
          case isTrue hhd =>
            injection hstep with hs'
            subst hs'
            intro j
            by_cases hj : j = i
            · subst hj
              unfold callInv
              dsimp only
              rw [updF_self, updF_self]
              simp only [callInvAt]
              exact ⟨hhd, hby, hfc, by omega, hm, hsh, hob⟩
            · refine callInv_frame env s _ j (updF_ne _ _ _ _ hj) rfl
                (updF_ne _ _ _ _ hj) rfl rfl rfl (fun h => h) (hinv j)
          case isFalse hhd =>
            injection hstep with hs'
            subst hs'
            intro j
            by_cases hj : j = i
            · subst hj
              unfold callInv
              dsimp only
              rw [updF_self, updF_self]
              simp only [callInvAt]
              exact ⟨trivial, hby, hfc, by omega, hm, hsh, hob⟩
            · refine callInv_frame env s _ j (updF_ne _ _ _ _ hj) rfl
                (updF_ne _ _ _ _ hj) rfl (updF_ne _ _ _ _ hj) rfl
                (fun _ => rfl) (hinv j)
        case isFalse hsh =>
          injection hstep with hs'
          subst hs'
          intro j
          by_cases hj : j = i
          · subst hj
            unfold callInv
            dsimp only
            rw [updF_self, updF_self]
            simp only [callInvAt, doneInvAt]
            refine Or.inr (Or.inl ⟨hby, hfc, by omega, htr, hob, e, hm, ?_, rfl⟩)
            simp [hsh]
          · refine callInv_frame env s _ j (updF_ne _ _ _ _ hj) rfl
              (updF_ne _ _ _ _ hj) rfl rfl rfl (fun h => h) (hinv j)
    case h_2 hp =>
      rw [hp] at hi
      simp only [callInvAt] at hi
      obtain ⟨hby, hfc, hsc, htr, hob⟩ := hi
      rw [hfc] at hstep
      norm_num at hstep
      split at hstep
      case h_1 v hm =>
        injection hstep with hs'
        subst hs'
        intro j
        by_cases hj : j = i
        · subst hj
          unfold callInv
          dsimp only
          rw [updF_self]
          simp only [callInvAt, doneInvAt]
          exact Or.inr (Or.inr (Or.inr (Or.inr (Or.inl
            ⟨hby, hfc, hsc, htr, hob, v, hm, rfl⟩))))
        · exact callInv_frame env s _ j (updF_ne _ _ _ _ hj) rfl rfl rfl rfl rfl
            (fun h => h) (hinv j)
      case h_2 e hm =>
        injection hstep with hs'
        subst hs'
        intro j
        by_cases hj : j = i
        · subst hj
          unfold callInv invokeFetch
          dsimp only
          rw [updF_self, updF_self]
          simp only [callInvAt]
          exact ⟨hby, hsc, htr, Or.inr ⟨hob, by omega, e, hm⟩⟩
        · refine callInv_frame env s _ j (updF_ne _ _ _ _ hj)
            (updF_ne _ _ _ _ hj) rfl rfl rfl rfl (fun h => h) (hinv j)
    case h_3 hp =>
      rw [hp] at hi
      simp only [callInvAt] at hi
      obtain ⟨hby, hsc, htr, hd⟩ := hi
      injection hstep with hs'
      subst hs'
      intro j
      by_cases hj : j = i
      · subst hj
        unfold callInv
        dsimp only
        rw [updF_self]
        simp only [callInvAt, doneInvAt]
        rcases hd with ⟨hob, hfc⟩ | ⟨hob, hfc, e0, hm0⟩
        · exact Or.inr (Or.inr (Or.inr (Or.inr (Or.inr (Or.inl
            ⟨hby, hfc, hsc, htr, hob, by rw [hfc]⟩)))))
        · exact Or.inr (Or.inr (Or.inr (Or.inr (Or.inr (Or.inr
            ⟨hby, hfc, hsc, htr, hob, ⟨e0, hm0⟩, by rw [hfc]⟩)))))
      · exact callInv_frame env s _ j (updF_ne _ _ _ _ hj) rfl rfl rfl rfl rfl
          (fun h => h) (hinv j)
    case h_4 e hp =>
      rw [hp] at hi
      simp only [callInvAt] at hi
      obtain ⟨hby, hfc, hsc, hm0, hsh, hob⟩ := hi
      rw [hfc] at hstep
      norm_num at hstep
      split at hstep
      case h_1 v hm =>
        injection hstep with hs'
        subst hs'
        intro j
        by_cases hj : j = i
        · subst hj
          unfold callInv
          dsimp only
          rw [updF_self]
          simp only [callInvAt, doneInvAt]
          exact Or.inr (Or.inr (Or.inr (Or.inl
            ⟨hby, hfc, hsc, hob, e, hm0, hsh, Or.inl ⟨v, hm, rfl⟩⟩)))
        · exact callInv_frame env s _ j (updF_ne _ _ _ _ hj) rfl rfl rfl rfl rfl
            (fun h => h) (hinv j)
      case h_2 e2 hm =>
        injection hstep with hs'
        subst hs'
        intro j
        by_cases hj : j = i
        · subst hj
          unfold callInv
          dsimp only
          rw [updF_self]
          simp only [callInvAt, doneInvAt]
          exact Or.inr (Or.inr (Or.inr (Or.inl
            ⟨hby, hfc, hsc, hob, e, hm0, hsh, Or.inr ⟨e2, hm, rfl⟩⟩)))
        · exact callInv_frame env s _ j (updF_ne _ _ _ _ hj) rfl rfl rfl rfl rfl
            (fun h => h) (hinv j)

/-- The refreshSettle event preserves the per-call invariant: awaiting
calls become resumable carrying the settlement outcome, everyone else is
untouched, and the handle is cleared in the same step. -/
theorem stepSettle_callInv (env : Env) (s s' : State)
    (hstep : step env s .refreshSettle = some s') (hinv : ∀ j, callInv env s j) :
    ∀ j, callInv env s' j := by
  simp only [step] at hstep
  split at hstep
  case isFalse => exact absurd hstep (by simp)
  case isTrue hhd =>
    injection hstep with hs'
    subst hs'
    intro j
    have hj := hinv j
    unfold callInv at hj ⊢
    dsimp only
    cases hq : s.phase j <;> rw [hq] at hj
    case entry =>
      simp only [settleP, settleObs, callInvAt] at hj ⊢
      exact hj
    case bAwaitRefresh =>
      simp only [settleP, settleObs, callInvAt] at hj ⊢
      obtain ⟨_, hby, hfc, hsc, htr, _⟩ := hj
      exact ⟨hby, hfc, hsc, htr, trivial⟩
    case bResume b0 =>
      simp only [settleP, settleObs, callInvAt] at hj ⊢
      exact hj
    case bFetchTry =>
      simp only [settleP, settleObs, callInvAt] at hj ⊢
      exact hj
    case bFetchCatch =>
      simp only [settleP, settleObs, callInvAt] at hj ⊢
      exact hj
    case mFetchFirst =>
      simp only [settleP, settleObs, callInvAt] at hj ⊢
      exact hj
    case mAwaitRefresh e =>
      simp only [settleP, settleObs, callInvAt] at hj ⊢
      obtain ⟨_, hby, hfc, hsc, hm, hsh, _⟩ := hj
      exact ⟨hby, hfc, hsc, hm, hsh, trivial⟩
    case mResume e b0 =>
      simp only [settleP, settleObs, callInvAt] at hj ⊢
      exact hj
    case mRetry e =>
      simp only [settleP, settleObs, callInvAt] at hj ⊢
      exact hj
    case done r =>
      simp only [settleP, settleObs, callInvAt] at hj ⊢
      exact hj

/-- The resume event preserves the per-call invariant. -/
theorem stepResume_callInv (env : Env) (s s' : State) (i : Nat)
    (hstep : step env s (.resume i) = some s') (hinv : ∀ j, callInv env s j) :
    ∀ j, callInv env s' j := by
  have hi := hinv i
  unfold callInv at hi
  simp only [step] at hstep
  split at hstep
  case isFalse => exact absurd hstep (by simp)
  case isTrue hn =>
    split at hstep
    case h_5 => exact absurd hstep (by simp)
    case h_1 hp =>
      rw [hp] at hi
      simp only [callInvAt] at hi
      obtain ⟨hby, hfc, hsc, htr, hob⟩ := hi
      injection hstep with hs'
      subst hs'
      intro j
      by_cases hj : j = i
      · subst hj
        unfold callInv invokeFetch
        dsimp only
        rw [updF_self, updF_self]
        simp only [callInvAt]
        exact ⟨hby, by omega, hsc, htr, hob⟩
      · refine callInv_frame env s _ j (updF_ne _ _ _ _ hj)
          (updF_ne _ _ _ _ hj) rfl rfl rfl rfl (fun h => h) (hinv j)
    case h_2 hp =>
      rw [hp] at hi
      simp only [callInvAt] at hi
      obtain ⟨hby, hfc, hsc, htr, hob⟩ := hi
      injection hstep with hs'
      subst hs'
      intro j
      by_cases hj : j = i
      · subst hj
        unfold callInv invokeFetch
        dsimp only
        rw [updF_self, updF_self]
        simp only [callInvAt]
        exact ⟨hby, hsc, htr, Or.inl ⟨hob, by omega⟩⟩
      · refine callInv_frame env s _ j (updF_ne _ _ _ _ hj)
          (updF_ne _ _ _ _ hj) rfl rfl rfl rfl (fun h => h) (hinv j)
    case h_3 e hp =>
      rw [hp] at hi
      simp only [callInvAt] at hi
      obtain ⟨hby, hfc, hsc, hm, hsh, hob⟩ := hi
      injection hstep with hs'
      subst hs'
      intro j
      by_cases hj : j = i
      · subst hj
        unfold callInv invokeFetch
        dsimp only
        rw [updF_self, updF_self]
        simp only [callInvAt]
        exact ⟨hby, by omega, hsc, hm, hsh, hob⟩
      · refine callInv_frame env s _ j (updF_ne _ _ _ _ hj)
          (updF_ne _ _ _ _ hj) rfl rfl rfl rfl (fun h => h) (hinv j)
    case h_4 e hp =>
      rw [hp] at hi
      simp only [callInvAt] at hi
      obtain ⟨hby, hfc, hsc, hm, hsh, hob⟩ := hi
      injection hstep with hs'
      subst hs'
      intro j
      by_cases hj : j = i
      · subst hj
        unfold callInv
        dsimp only
        rw [updF_self]
        simp only [callInvAt, doneInvAt]
        exact Or.inr (Or.inr (Or.inl ⟨hby, hfc, hsc, hob, e, hm, hsh, rfl⟩))
      · exact callInv_frame env s _ j (updF_ne _ _ _ _ hj) rfl rfl rfl rfl rfl
          (fun h => h) (hinv j)

/-- Every step preserves the per-call invariant. -/
theorem step_callInv (env : Env) (s s' : State) (ev : Event)
    (hstep : step env s ev = some s') (hinv : ∀ j, callInv env s j) :
    ∀ j, callInv env s' j := by
  cases ev with
  | start i => exact stepStart_callInv env s s' i hstep hinv
  | fetchSettle i => exact stepFetch_callInv env s s' i hstep hinv
  | refreshSettle => exact stepSettle_callInv env s s' hstep hinv
  | resume i => exact stepResume_callInv env s s' i hstep hinv

/-- The per-call invariant holds along any run. -/
theorem run_callInv (env : Env) (t : List Event) (s s' : State)
    (hrun : run env s t = some s') (hinv : ∀ j, callInv env s j) :
    ∀ j, callInv env s' j := by
  induction t generalizing s with
  | nil =>
    simp only [run] at hrun
    injection hrun with h
    subst h
    exact hinv
  | cons ev t ih =>
    simp only [run] at hrun
    cases hst : step env s ev with
    | none => rw [hst] at hrun; exact absurd hrun (by simp)
    | some s1 =>
      rw [hst] at hrun
      exact ih s1 hrun (step_callInv env s s1 ev hst hinv)

/-- The initial state satisfies the per-call invariant. -/
theorem init_callInv (env : Env) : ∀ j, callInv env init j := by
  intro j
  exact ⟨rfl, rfl, rfl, rfl, rfl⟩

/-- The per-call invariant holds in every reachable state. -/
theorem reach_callInv (env : Env) (t : List Event) (s : State)
    (hrun : run env init t = some s) : ∀ j, callInv env s j :=
  run_callInv env t init s hrun (init_callInv env)

/-- Log invariant: every transport call in the log was issued with the
issuing invocation's own argument pair, and the per-call transport counter
agrees with the log. -/
def logInv (env : Env) (s : State) : Prop :=
  (∀ p ∈ s.fetchLog, p.2 = env.args p.1) ∧
  (∀ i, s.fetchCount i = (s.fetchLog.filter (fun q => q.1 == i)).length)

/-- Any step either leaves the transport log and counters alone or issues
exactly one transport call for some invocation i with i's own argument. -/
theorem step_log_shape (env : Env) (s s' : State) (ev : Event)
    (hstep : step env s ev = some s') :
    (s'.fetchLog = s.fetchLog ∧ s'.fetchCount = s.fetchCount) ∨
    (∃ i, s'.fetchLog = s.fetchLog ++ [(i, env.args i)] ∧
      s'.fetchCount = updF s.fetchCount i (s.fetchCount i + 1)) := by
  cases ev with
  | start i =>
    simp only [step] at hstep
    split at hstep
    case isFalse => exact absurd hstep (by simp)
    case isTrue =>
      split at hstep
      case h_2 => exact absurd hstep (by simp)
      case h_1 =>
        split at hstep
        all_goals injection hstep with hs'
        all_goals subst hs'
        · exact Or.inl ⟨rfl, rfl⟩
        · exact Or.inr ⟨i, rfl, rfl⟩
  | fetchSettle i =>
    simp only [step] at hstep
    split at hstep
    case isFalse => exact absurd hstep (by simp)
    case isTrue =>
      split at hstep
      case h_5 => exact absurd hstep (by simp)
      case h_1 =>
        split at hstep
        case h_1 =>
          injection hstep with hs'
          subst hs'
          exact Or.inl ⟨rfl, rfl⟩
        case h_2 =>
          split at hstep
          case isTrue =>
            split at hstep
            all_goals injection hstep with hs'
            all_goals subst hs'
            all_goals exact Or.inl ⟨rfl, rfl⟩
          case isFalse =>
            injection hstep with hs'
            subst hs'
            exact Or.inl ⟨rfl, rfl⟩
      case h_2 =>
        split at hstep
        case h_1 =>
          injection hstep with hs'
          subst hs'
          exact Or.inl ⟨rfl, rfl⟩
        case h_2 =>
          injection hstep with hs'
          subst hs'
          exact Or.inr ⟨i, rfl, rfl⟩
      case h_3 =>
        injection hstep with hs'
        subst hs'
        exact Or.inl ⟨rfl, rfl⟩
      case h_4 =>
        split at hstep
        all_goals injection hstep with hs'
        all_goals subst hs'
        all_goals exact Or.inl ⟨rfl, rfl⟩
  | refreshSettle =>
    simp only [step] at hstep
    split at hstep
    case isFalse => exact absurd hstep (by simp)
    case isTrue =>
      injection hstep with hs'
      subst hs'
      exact Or.inl ⟨rfl, rfl⟩
  | resume i =>
    simp only [step] at hstep
    split at hstep
    case isFalse => exact absurd hstep (by simp)
    case isTrue =>
      split at hstep
      case h_5 => exact absurd hstep (by simp)
      case h_1 =>
        injection hstep with hs'
        subst hs'
        exact Or.inr ⟨i, rfl, rfl⟩
      case h_2 =>
        injection hstep with hs'
        subst hs'
        exact Or.inr ⟨i, rfl, rfl⟩
      case h_3 =>
        injection hstep with hs'
        subst hs'
        exact Or.inr ⟨i, rfl, rfl⟩
      case h_4 =>
        injection hstep with hs'
        subst hs'
        exact Or.inl ⟨rfl, rfl⟩

/-- Every step preserves the log invariant. -/
theorem logInv_step (env : Env) (s s' : State) (ev : Event)
    (hstep : step env s ev = some s') (h : logInv env s) : logInv env s' := by
  rcases step_log_shape env s s' ev hstep with ⟨hl, hc⟩ | ⟨i, hl, hc⟩
  · exact ⟨by rw [hl]; exact h.1, by rw [hc, hl]; exact h.2⟩
  · constructor
    · intro p hp
      rw [hl] at hp
      rcases List.mem_append.1 hp with hp | hp
      · exact h.1 p hp
      · have hp2 : p = (i, env.args i) := by simpa using hp
        rw [hp2]
    · intro j
      rw [hc, hl, List.filter_append, List.length_append]
      by_cases hj : j = i
      · subst hj
        rw [updF_self]
        have : (List.filter (fun q => q.1 == j) [(j, env.args j)]).length = 1 := by
          simp
        rw [this, h.2 j]
      · rw [updF_ne _ _ _ _ hj]
        have : (List.filter (fun q => q.1 == j) [(i, env.args i)]).length = 0 := by
          simp
          intro hij
          exact absurd hij.symm hj
        rw [this, h.2 j]
        omega

/-- The log invariant holds in every reachable state. -/
theorem reach_logInv (env : Env) (t : List Event) (s : State)
    (hrun : run env init t = some s) : logInv env s := by
  have hgen : ∀ u (s0 s1 : State), run env s0 u = some s1 → logInv env s0 →
      logInv env s1 := by
    intro u
    induction u with
    | nil =>
      intro s0 s1 hr h
      simp only [run] at hr
      injection hr with hr
      subst hr
      exact h
    | cons ev v ih =>
      intro s0 s1 hr h
      simp only [run] at hr
      cases hst : step env s0 ev with
      | none => rw [hst] at hr; exact absurd hr (by simp)
      | some sm =>
        rw [hst] at hr
        exact ih sm s1 hr (logInv_step env s0 sm ev hst h)
  exact hgen t init s hrun ⟨by intro p hp; simp [init] at hp, by intro i; rfl⟩

/-- Shape of an arbitrary step: either it is the refresh settlement —
which clears the handle, keeps the invocation counter, maps every phase
through settleP and issues no transport call — or it is a non-settlement
step, which rewrites the phase of a single invocation whose current phase
is not an await phase, and either leaves the handle and refresh counter
alone or performs the atomic check-and-install (handle from absent to
pending and `refreshToken` invoked, in one step). -/
theorem step_shape (env : Env) (s s' : State) (ev : Event)
    (hstep : step env s ev = some s') :
    (ev = .refreshSettle ∧ s.handle = true ∧ s'.handle = false ∧
      s'.refreshCount = s.refreshCount ∧
      (∀ j, s'.phase j = settleP (oOk (env.refreshO (s.refreshCount - 1))) (s.phase j)) ∧
      (∀ j, s'.fetchCount j = s.fetchCount j)) ∨
    (ev ≠ .refreshSettle ∧ ∃ i p, isAwaitP (s.phase i) = false ∧
      (∀ j, s'.phase j = updF s.phase i p j) ∧
      ((s'.handle = s.handle ∧ s'.refreshCount = s.refreshCount) ∨
       (s.handle = false ∧ s'.handle = true ∧
         s'.refreshCount = s.refreshCount + 1 ∧
         ∃ e, env.should e = true))) := by
  cases ev with
  | start i =>
    simp only [step] at hstep
    split at hstep
    case isFalse => exact absurd hstep (by simp)
    case isTrue =>
      split at hstep
      case h_2 => exact absurd hstep (by simp)
      case h_1 hp =>
        split at hstep
        all_goals injection hstep with hs'
        all_goals subst hs'
        · exact Or.inr ⟨by simp, i, _, by rw [hp]; rfl, fun j => rfl,
            Or.inl ⟨rfl, rfl⟩⟩
        · exact Or.inr ⟨by simp, i, _, by rw [hp]; rfl, fun j => rfl,
            Or.inl ⟨rfl, rfl⟩⟩
  | fetchSettle i =>
    simp only [step] at hstep
    split at hstep
    case isFalse => exact absurd hstep (by simp)
    case isTrue =>
      split at hstep
      case h_5 => exact absurd hstep (by simp)
      case h_1 hp =>
        split at hstep
        case h_1 =>
          injection hstep with hs'
          subst hs'
          exact Or.inr ⟨by simp, i, _, by rw [hp]; rfl, fun j => rfl,
            Or.inl ⟨rfl, rfl⟩⟩
        case h_2 =>
          split at hstep
          case isTrue =>
            split at hstep
            all_goals injection hstep with hs'
            all_goals subst hs'
            · exact Or.inr ⟨by simp, i, _, by rw [hp]; rfl, fun j => rfl,
                Or.inl ⟨rfl, rfl⟩⟩
            · exact Or.inr ⟨by simp, i, _, by rw [hp]; rfl, fun j => rfl,
                Or.inr ⟨by rename_i hhd; simpa using hhd, rfl, rfl,
                  by rename_i a hm hsh hhd; exact ⟨a, hsh⟩⟩⟩
          case isFalse =>
            injection hstep with hs'
            subst hs'
            exact Or.inr ⟨by simp, i, _, by rw [hp]; rfl, fun j => rfl,
              Or.inl ⟨rfl, rfl⟩⟩
      case h_2 hp =>
        split at hstep
        all_goals injection hstep with hs'
        all_goals subst hs'
        · exact Or.inr ⟨by simp, i, _, by rw [hp]; rfl, fun j => rfl,
            Or.inl ⟨rfl, rfl⟩⟩
        · exact Or.inr ⟨by simp, i, _, by rw [hp]; rfl, fun j => rfl,
            Or.inl ⟨rfl, rfl⟩⟩
      case h_3 hp =>
        injection hstep with hs'
        subst hs'
        exact Or.inr ⟨by simp, i, _, by rw [hp]; rfl, fun j => rfl,
          Or.inl ⟨rfl, rfl⟩⟩
      case h_4 e hp =>
        split at hstep
        all_goals injection hstep with hs'
        all_goals subst hs'
        · exact Or.inr ⟨by simp, i, _, by rw [hp]; rfl, fun j => rfl,
            Or.inl ⟨rfl, rfl⟩⟩
        · exact Or.inr ⟨by simp, i, _, by rw [hp]; rfl, fun j => rfl,
            Or.inl ⟨rfl, rfl⟩⟩
  | refreshSettle =>
    simp only [step] at hstep
    split at hstep
    case isFalse => exact absurd hstep (by simp)
    case isTrue hhd =>
      injection hstep with hs'
      subst hs'
      exact Or.inl ⟨rfl, hhd, rfl, rfl, fun j => rfl, fun j => rfl⟩
  | resume i =>
    simp only [step] at hstep
    split at hstep
    case isFalse => exact absurd hstep (by simp)
    case isTrue =>
      split at hstep
      case h_5 => exact absurd hstep (by simp)
      case h_1 hp =>
        injection hstep with hs'
        subst hs'
        exact Or.inr ⟨by simp, i, _, by rw [hp]; rfl, fun j => rfl,
          Or.inl ⟨rfl, rfl⟩⟩
      case h_2 hp =>
        injection hstep with hs'
        subst hs'
        exact Or.inr ⟨by simp, i, _, by rw [hp]; rfl, fun j => rfl,
          Or.inl ⟨rfl, rfl⟩⟩
      case h_3 e hp =>
        injection hstep with hs'
        subst hs'
        exact Or.inr ⟨by simp, i, _, by rw [hp]; rfl, fun j => rfl,
          Or.inl ⟨rfl, rfl⟩⟩
      case h_4 e hp =>
        injection hstep with hs'
        subst hs'
        exact Or.inr ⟨by simp, i, _, by rw [hp]; rfl, fun j => rfl,
          Or.inl ⟨rfl, rfl⟩⟩

/-- The atomic check-and-install: whenever a step changes the number of
`refreshToken` invocations, that same step saw no pending handle and
installed one, and it invoked `refreshToken` exactly once. -/
theorem install_atomic (env : Env) (s s' : State) (ev : Event)
    (hstep : step env s ev = some s')
    (hne : s'.refreshCount ≠ s.refreshCount) :
    s.handle = false ∧ s'.handle = true ∧
      s'.refreshCount = s.refreshCount + 1 := by
  rcases step_shape env s s' ev hstep with ⟨_, _, _, hrc, _, _⟩ | ⟨_, i, p, _, _, hc⟩
  · exact absurd hrc hne
  · rcases hc with ⟨_, hrc⟩ | hc
    · exact absurd hrc hne
    · exact ⟨hc.1, hc.2.1, hc.2.2.1⟩

/-- A step with a non-settlement event neither changes the settlement
measure (refresh count plus pending flag) nor any observed refresh
outcome nor any per-call classification counter in a way that loses the
episode accounting: the measure refreshCount + (1 if no handle pending)
is invariant, and obsRefresh is untouched. -/
theorem step_noSettle (env : Env) (s s' : State) (ev : Event)
    (hstep : step env s ev = some s') (hev : ev ≠ .refreshSettle) :
    s'.refreshCount + (if s'.handle = true then 0 else 1) =
      s.refreshCount + (if s.handle = true then 0 else 1) ∧
    (∀ j, s'.obsRefresh j = s.obsRefresh j) := by
  cases ev with
  | refreshSettle => exact absurd rfl hev
  | start i =>
    simp only [step] at hstep
    split at hstep
    case isFalse => exact absurd hstep (by simp)
    case isTrue =>
      split at hstep
      case h_2 => exact absurd hstep (by simp)
      case h_1 =>
        split at hstep
        all_goals injection hstep with hs'
        all_goals subst hs'
        all_goals exact ⟨rfl, fun j => rfl⟩
  | fetchSettle i =>
    simp only [step] at hstep
    split at hstep
    case isFalse => exact absurd hstep (by simp)
    case isTrue =>
      split at hstep
      case h_5 => exact absurd hstep (by simp)
      case h_1 =>
        split at hstep
        case h_1 =>
          injection hstep with hs'
          subst hs'
          exact ⟨rfl, fun j => rfl⟩
        case h_2 =>
          split at hstep
          case isTrue =>
            split at hstep
            all_goals injection hstep with hs'
            all_goals subst hs'
            · exact ⟨rfl, fun j => rfl⟩
            · rename_i hhd
              refine ⟨?_, fun j => rfl⟩
              have hh2 : s.handle = false := by simpa using hhd
              rw [hh2]
              simp
          case isFalse =>
            injection hstep with hs'
            subst hs'
            exact ⟨rfl, fun j => rfl⟩
      case h_2 =>
        split at hstep
        all_goals injection hstep with hs'
        all_goals subst hs'
        all_goals exact ⟨rfl, fun j => rfl⟩
      case h_3 =>
        injection hstep with hs'
        subst hs'
        exact ⟨rfl, fun j => rfl⟩
      case h_4 =>
        split at hstep
        all_goals injection hstep with hs'
        all_goals subst hs'
        all_goals exact ⟨rfl, fun j => rfl⟩
  | resume i =>
    simp only [step] at hstep
    split at hstep
    case isFalse => exact absurd hstep (by simp)
    case isTrue =>
      split at hstep
      case h_5 => exact absurd hstep (by simp)
      all_goals injection hstep with hs'
      all_goals subst hs'
      all_goals exact ⟨rfl, fun j => rfl⟩

/-- Along a run containing no settlement event, the settlement measure and
all observed refresh outcomes are unchanged. -/
theorem run_noSettle (env : Env) (t : List Event) (s s' : State)
    (hrun : run env s t = some s') (hns : ∀ ev ∈ t, ev ≠ Event.refreshSettle) :
    s'.refreshCount + (if s'.handle = true then 0 else 1) =
      s.refreshCount + (if s.handle = true then 0 else 1) ∧
    (∀ j, s'.obsRefresh j = s.obsRefresh j) := by
  induction t generalizing s with
  | nil =>
    simp only [run] at hrun
    injection hrun with h
    subst h
    exact ⟨rfl, fun j => rfl⟩
  | cons ev u ih =>
    simp only [run] at hrun
    cases hst : step env s ev with
    | none => rw [hst] at hrun; exact absurd hrun (by simp)
    | some s1 =>
      rw [hst] at hrun
      have h1 := step_noSettle env s s1 ev hst (hns ev (by simp))
      have h2 := ih s1 hrun (fun e he => hns e (by simp [he]))
      exact ⟨by rw [h2.1, h1.1], fun j => by rw [h2.2 j, h1.2 j]⟩

/-- A settlement either leaves a call's observed refresh outcome alone or
records the delivered outcome. -/
theorem settleObs_cases (b : Bool) (p : Phase) (o : Option Bool) :
    settleObs b p o = o ∨ settleObs b p o = some b := by
  cases p <;> simp [settleObs]

/-- Single-episode invariant, holding once every one of the n concurrent
invocations has classified its failed first transport call while the one
installed handle was still pending: `refreshToken` has been invoked
exactly once, every invocation has run `shouldRefreshToken` exactly once
and is on the main (non-bystander) path, and the only refresh outcome any
invocation can ever have observed is the outcome of the single
`refreshToken` invocation. -/
def postInv (env : Env) (s : State) : Prop :=
  s.refreshCount = 1 ∧
  ∀ i, i < env.n → s.shouldCount i = 1 ∧ s.byst i = false ∧
    (s.obsRefresh i = none ∨ s.obsRefresh i = some (oOk (env.refreshO 0)))

/-- Every step preserves the single-episode invariant (given the per-call
invariant): once all n calls have classified, no event can start a new
invocation, classify again, or install a second handle. -/
theorem postInv_step (env : Env) (s s' : State) (ev : Event)
    (hstep : step env s ev = some s') (hinv : ∀ j, callInv env s j)
    (hpost : postInv env s) : postInv env s' := by
  cases ev with
  | start i =>
    simp only [step] at hstep
    split at hstep
    case isFalse => exact absurd hstep (by simp)
    case isTrue hn =>
      split at hstep
      case h_2 => exact absurd hstep (by simp)
      case h_1 hp =>
        have hi := hinv i
        unfold callInv at hi
        rw [hp] at hi
        simp only [callInvAt] at hi
        obtain ⟨_, hsc, _⟩ := hi
        have h1 := (hpost.2 i hn).1
        omega
  | fetchSettle i =>
    simp only [step] at hstep
    split at hstep
    case isFalse => exact absurd hstep (by simp)
    case isTrue hn =>
      split at hstep
      case h_5 => exact absurd hstep (by simp)
      case h_1 hp =>
        have hi := hinv i
        unfold callInv at hi
        rw [hp] at hi
        simp only [callInvAt] at hi
        obtain ⟨_, _, hsc, _⟩ := hi
        have h1 := (hpost.2 i hn).1
        omega
      case h_2 hp =>
        have hi := hinv i
        unfold callInv at hi
        rw [hp] at hi
        simp only [callInvAt] at hi
        have h1 := (hpost.2 i hn).2.1
        rw [hi.1] at h1
        exact absurd h1 (by simp)
      case h_3 hp =>
        have hi := hinv i
        unfold callInv at hi
        rw [hp] at hi
        simp only [callInvAt] at hi
        have h1 := (hpost.2 i hn).2.1
        rw [hi.1] at h1
        exact absurd h1 (by simp)
      case h_4 e hp =>
        split at hstep
        all_goals injection hstep with hs'
        all_goals subst hs'
        all_goals exact ⟨hpost.1, fun k hk => (hpost.2 k hk)⟩
  | refreshSettle =>
    simp only [step] at hstep
    split at hstep
    case isFalse => exact absurd hstep (by simp)
    case isTrue hhd =>
      injection hstep with hs'
      subst hs'
      refine ⟨hpost.1, fun k hk => ?_⟩
      obtain ⟨hsc, hby, hob⟩ := hpost.2 k hk
      refine ⟨hsc, hby, ?_⟩
      rcases settleObs_cases (oOk (env.refreshO (s.refreshCount - 1))) (s.phase k)
        (s.obsRefresh k) with h | h
      · dsimp only
        rw [h]
        exact hob
      · dsimp only
        rw [h, hpost.1]
        exact Or.inr rfl
  | resume i =>
    simp only [step] at hstep
    split at hstep
    case isFalse => exact absurd hstep (by simp)
    case isTrue hn =>
      split at hstep
      case h_5 => exact absurd hstep (by simp)
      case h_1 hp =>
        have hi := hinv i
        unfold callInv at hi
        rw [hp] at hi
        simp only [callInvAt] at hi
        have h1 := (hpost.2 i hn).2.1
        rw [hi.1] at h1
        exact absurd h1 (by simp)
      case h_2 hp =>
        have hi := hinv i
        unfold callInv at hi
        rw [hp] at hi
        simp only [callInvAt] at hi
        have h1 := (hpost.2 i hn).2.1
        rw [hi.1] at h1
        exact absurd h1 (by simp)
      case h_3 e hp =>
        injection hstep with hs'
        subst hs'
        exact ⟨hpost.1, fun k hk => (hpost.2 k hk)⟩
      case h_4 e hp =>
        injection hstep with hs'
        subst hs'
        exact ⟨hpost.1, fun k hk => (hpost.2 k hk)⟩

/-- The single-episode invariant propagates along any run that also
carries the per-call invariant. -/
theorem run_postInv (env : Env) (t : List Event) (s s' : State)
    (hrun : run env s t = some s') (hinv : ∀ j, callInv env s j)
    (hpost : postInv env s) : postInv env s' := by
  induction t generalizing s with
  | nil =>
    simp only [run] at hrun
    injection hrun with h
    subst h
    exact hpost
  | cons ev u ih =>
    simp only [run] at hrun
    cases hst : step env s ev with
    | none => rw [hst] at hrun; exact absurd hrun (by simp)
    | some s1 =>
      rw [hst] at hrun
      exact ih s1 hrun (step_callInv env s s1 ev hst hinv)
        (postInv_step env s s1 ev hst hinv hpost)

/-- A classified call that has never observed a refresh settlement and
whose first transport failure is auth-classified is suspended on the
refresh handle. -/
theorem classified_await (env : Env) (s : State) (i : Nat)
    (hinv : ∀ j, callInv env s j) (hobs : s.obsRefresh i = none)
    (hsc : s.shouldCount i = 1)
    (hH1 : ∃ e, env.fetchO i 0 = .err e ∧ env.should e = true) :
    ∃ e, s.phase i = .mAwaitRefresh e := by
  have hi := hinv i
  unfold callInv at hi
  obtain ⟨e0, hm0, hsh0⟩ := hH1
  cases hq : s.phase i <;> rw [hq] at hi <;>
    simp only [callInvAt, doneInvAt] at hi
  case entry => omega
  case bAwaitRefresh => exact absurd hi.2.2.2.1 (by omega)
  case bResume => exact absurd hi.2.2.1 (by omega)
  case bFetchTry => exact absurd hi.2.2.1 (by omega)
  case bFetchCatch => exact absurd hi.2.1 (by omega)
  case mFetchFirst => exact absurd hi.2.2.1 (by omega)
  case mAwaitRefresh e => exact ⟨e, rfl⟩
  case mResume e b =>
    rw [hobs] at hi
    exact absurd hi.2.2.2.2.2 (by simp)
  case mRetry e =>
    rw [hobs] at hi
    exact absurd hi.2.2.2.2.2 (by simp)
  case done r =>
    rcases hi with h | h | h | h | h | h | h
    · exact absurd h.2.2.1 (by omega)
    · obtain ⟨_, _, _, _, _, e1, hm1, hsh1, _⟩ := h
      rw [hm0] at hm1
      injection hm1 with he
      rw [he] at hsh0
      rw [hsh0] at hsh1
      exact absurd hsh1 (by simp)
    · rw [hobs] at h
      exact absurd h.2.2.2.1 (by simp)
    · rw [hobs] at h
      exact absurd h.2.2.2.1 (by simp)
    · exact absurd h.2.2.1 (by omega)
    · exact absurd h.2.2.1 (by omega)
    · exact absurd h.2.2.1 (by omega)

/-! Concrete environments and schedules used by witnesses and
counterexamples. -/

/-- Three concurrent calls whose first transport attempts all fail
auth-classified; the refresh succeeds; retries succeed. -/
def envThree : Env where
  n := 3
  args := fun i => 100 + i
  fetchO := fun i k => if k = 0 then .err (10 + i) else .ok (20 + i)
  should := fun _ => true
  refreshO := fun _ => .ok 0

/-- The spec's three-call scenario schedule: all three calls start and
fail before the refresh settles, then all three retry. -/
def trThree : List Event :=
  [.start 0, .start 1, .start 2, .fetchSettle 0, .fetchSettle 1,
   .fetchSettle 2, .refreshSettle, .resume 0, .resume 1, .resume 2,
   .fetchSettle 0, .fetchSettle 1, .fetchSettle 2]

/-- One call, auth-classified failure, failing refresh. -/
def envRefreshFail : Env where
  n := 1
  args := fun i => i
  fetchO := fun _ k => if k = 0 then .err 5 else .err 7
  should := fun _ => true
  refreshO := fun _ => .err 11

/-- One call, auth-classified failure, successful refresh, failing retry. -/
def envRetryFail : Env where
  n := 1
  args := fun i => i
  fetchO := fun _ k => if k = 0 then .err 5 else .err 7
  should := fun _ => true
  refreshO := fun _ => .ok 0

/-- Claim C1 (single-flight), amended.  For any schedule and any number
n ≥ 1 of concurrent invocations whose first transport attempts all fail
with an auth-classified error, where every invocation has classified its
failure before the first refresh settlement (the concurrency premise:
state s1 reached by the settlement-free prefix of the schedule has every
call classified), `refreshToken` is invoked exactly once over the whole
run.  Amendment forced by the counterexample: the claim's further
assertion that each call then issues exactly one further transport call
holds when the refresh succeeds (each finishing call has issued two
transport calls); when the refresh fails, a finishing call has issued no
further transport call (its count stays one) and rejects with its
original error.  The third conjunct is the claim's atomicity assertion:
any step that invokes `refreshToken` performs the no-pending-handle check
and the installation in that same single step. -/
theorem claim1_single_flight_amended (env : Env) (t : List Event)
    (s s1 : State) (hrun : run env init t = some s)
    (hpre : run env init (t.takeWhile (fun ev => ev != Event.refreshSettle))
      = some s1)
    (hall : ∀ i, i < env.n → s1.shouldCount i = 1)
    (hH1 : ∀ i, i < env.n → ∃ e, env.fetchO i 0 = .err e ∧ env.should e = true)
    (hn : 0 < env.n) :
    s.refreshCount = 1 ∧
    (∀ i, i < env.n → ∀ r, s.phase i = .done r →
      ((oOk (env.refreshO 0) = true → s.fetchCount i = 2) ∧
       (oOk (env.refreshO 0) = false → s.fetchCount i = 1 ∧
         ∃ e, env.fetchO i 0 = .err e ∧ r = .err e))) ∧
    (∀ u v ev, step env u ev = some v → v.refreshCount ≠ u.refreshCount →
      u.handle = false ∧ v.handle = true ∧
        v.refreshCount = u.refreshCount + 1) := by
  have hcall1 := reach_callInv env _ s1 hpre
  have hns : ∀ ev ∈ t.takeWhile (fun ev => ev != Event.refreshSettle),
      ev ≠ Event.refreshSettle := by
    intro ev hev
    have h := List.mem_takeWhile_imp hev
    simpa using h
  have hmeas := run_noSettle env _ init s1 hpre hns
  have hobs : ∀ j, s1.obsRefresh j = none := fun j => hmeas.2 j
  have hawait : ∀ i, i < env.n → ∃ e, s1.phase i = .mAwaitRefresh e :=
    fun i hi => classified_await env s1 i hcall1 (hobs i) (hall i hi) (hH1 i hi)
  obtain ⟨e0, he0⟩ := hawait 0 hn
  have hhd1 : s1.handle = true := by
    have h0 := hcall1 0
    unfold callInv at h0
    rw [he0] at h0
    simp only [callInvAt] at h0
    exact h0.1
  have hrc1 : s1.refreshCount = 1 := by
    have h := hmeas.1
    rw [hhd1] at h
    simp [init] at h
    omega
  have hpost1 : postInv env s1 := by
    refine ⟨hrc1, fun i hi => ?_⟩
    obtain ⟨e, he⟩ := hawait i hi
    have hci := hcall1 i
    unfold callInv at hci
    rw [he] at hci
    simp only [callInvAt] at hci
    exact ⟨hci.2.2.2.1, hci.2.1, Or.inl (hobs i)⟩
  have hsplit : run env s1
      (t.dropWhile (fun ev => ev != Event.refreshSettle)) = some s := by
    have h2 := run_append env init
      (t.takeWhile (fun ev => ev != Event.refreshSettle))
      (t.dropWhile (fun ev => ev != Event.refreshSettle))
    rw [List.takeWhile_append_dropWhile, hrun, hpre] at h2
    exact h2.symm
  have hposts : postInv env s :=
    run_postInv env _ s1 s hsplit hcall1 hpost1
  have hcalls := reach_callInv env t s hrun
  refine ⟨hposts.1, fun i hi r hdone => ?_,
    fun u v ev hst hne => install_atomic env u v ev hst hne⟩
  have hci := hcalls i
  unfold callInv at hci
  rw [hdone] at hci
  simp only [callInvAt, doneInvAt] at hci
  obtain ⟨hsc, hby, hob⟩ := hposts.2 i hi
  rcases hci with h | h | h | h | h | h | h
  · exact absurd h.2.2.1 (by omega)
  · obtain ⟨_, _, _, _, _, e1, hm1, hsh1, _⟩ := h
    obtain ⟨e2, hm2, hsh2⟩ := hH1 i hi
    rw [hm2] at hm1
    injection hm1 with he
    rw [he] at hsh2
    rw [hsh2] at hsh1
    exact absurd hsh1 (by simp)
  · obtain ⟨_, hfc, _, hobf, e, hm, hsh, hr⟩ := h
    rcases hob with hnone | hsome
    · rw [hobf] at hnone
      exact absurd hnone (by simp)
    · rw [hobf] at hsome
      injection hsome with hb
      constructor
      · intro htrue
        rw [htrue] at hb
        exact absurd hb (by simp)
      · intro _
        exact ⟨hfc, e, hm, hr⟩
  · obtain ⟨_, hfc, _, hobf, e, hm, hsh, hr⟩ := h
    rcases hob with hnone | hsome
    · rw [hobf] at hnone
      exact absurd hnone (by simp)
    · rw [hobf] at hsome
      injection hsome with hb
      constructor
      · intro _
        exact hfc
      · intro hfalse
        rw [hfalse] at hb
        exact absurd hb (by simp)
  · rw [hby] at h
    exact absurd h.1 (by simp)
  · rw [hby] at h
    exact absurd h.1 (by simp)
  · rw [hby] at h
    exact absurd h.1 (by simp)

/-- Claim C1, counterexample to the claim as stated.  A single invocation
(n = 1, trivially a set of concurrent auth-classified failures entered
with no refresh pending) whose refresh fails: `refreshToken` is invoked
exactly once, but the invocation finishes having issued only its one
original transport call — zero further transport calls, not the claimed
exactly one — rejecting with the original error. -/
theorem claim1_counterexample :
    (run envRefreshFail init
      [.start 0, .fetchSettle 0, .refreshSettle, .resume 0]).map
      (fun s => (s.refreshCount, s.phase 0, s.fetchCount 0)) =
      some (1, .done (.err 5), 1) := by
  rfl

/-- Witness for the amended claim C1: the spec's own scenario — three
concurrent calls, all failing auth-classified, refresh succeeds — run
through the theorem: `refreshToken` invoked once, and every call that
finished issued exactly two transport calls. -/
theorem claim1_witness :
    ((run envThree init trThree).map (fun s => s.refreshCount) = some 1) ∧
    ((run envThree init trThree).map
      (fun s => (s.fetchCount 0, s.fetchCount 1, s.fetchCount 2)) =
      some (2, 2, 2)) := by
  have hrun : run envThree init trThree =
      some ((run envThree init trThree).getD init) := by rfl
  have hpre : run envThree init
      (trThree.takeWhile (fun ev => ev != Event.refreshSettle)) =
      some ((run envThree init
        (trThree.takeWhile (fun ev => ev != Event.refreshSettle))).getD init) := by
    rfl
  have h := claim1_single_flight_amended envThree trThree _ _ hrun hpre
    (by intro i hi; have hi3 : i < 3 := hi; interval_cases i <;> rfl)
    (by intro i hi; exact ⟨10 + i, rfl, rfl⟩)
    (by decide)
  refine ⟨by rw [hrun]; simp [h.1], ?_⟩
  have h0 := h.2.1 0 (by decide) (.ok 20) (by rfl)
  have h1 := h.2.1 1 (by decide) (.ok 21) (by rfl)
  have h2 := h.2.1 2 (by decide) (.ok 22) (by rfl)
  have hf0 := h0.1 (by rfl)
  have hf1 := h1.1 (by rfl)
  have hf2 := h2.1 (by rfl)
  rw [hrun]
  simp [hf0, hf1, hf2]

/-- Claim C2 (pending-handle invariant).  The coordinator represents the
pending re-authentication handle as its single refreshingTokenPromise
field — modelled by the one Boolean handle field of the state, so at most
one pending handle exists at every instant by construction.  Over every
step of the machine: (i) any step that invokes `refreshToken` (changes
the invocation counter) is the atomic install step — no handle pending
before, pending after, counter bumped exactly once; (ii) the handle
never becomes pending except through that install step; (iii) the
settlement step — covering both success and failure of `refreshToken` —
clears the handle back to absent in that very step, and every call that
was awaiting the handle is at that point merely resumable: its retry
logic has not issued any transport call yet (fetchCount unchanged), so
the handle is reset before any awaiting caller resumes; (iv) a call
suspended on the handle leaves that suspension only through the
settlement event. -/
theorem claim2_pending_handle (env : Env) (s s' : State) (ev : Event)
    (hstep : step env s ev = some s') :
    (s'.refreshCount ≠ s.refreshCount →
      s.handle = false ∧ s'.handle = true ∧
        s'.refreshCount = s.refreshCount + 1) ∧
    (s.handle = false → s'.handle = true →
      s'.refreshCount = s.refreshCount + 1) ∧
    (ev = .refreshSettle → s'.handle = false ∧
      ∀ i, isAwaitP (s.phase i) = true →
        isResumeP (s'.phase i) = true ∧ s'.fetchCount i = s.fetchCount i) ∧
    (∀ i, isAwaitP (s.phase i) = true → isAwaitP (s'.phase i) = false →
      ev = .refreshSettle) := by
  rcases step_shape env s s' ev hstep with
    ⟨hev, hhd, hhd', hrc, hph, hfc⟩ | ⟨hev, i, p, hia, hph, hc⟩
  · refine ⟨fun hne => absurd hrc hne, fun h0 _ => ?_, fun _ => ?_,
      fun _ _ _ => hev⟩
    · rw [h0] at hhd
      exact absurd hhd (by simp)
    · refine ⟨hhd', fun j hA => ?_⟩
      cases hq : s.phase j <;> rw [hq] at hA
      case bAwaitRefresh =>
        rw [hph j, hq]
        exact ⟨by simp [settleP, isResumeP], hfc j⟩
      case mAwaitRefresh e =>
        rw [hph j, hq]
        exact ⟨by simp [settleP, isResumeP], hfc j⟩
      all_goals simp [isAwaitP] at hA
  · refine ⟨fun hne => ?_, fun h0 h1 => ?_, fun hevs => absurd hevs hev,
      fun j hA hA' => ?_⟩
    · rcases hc with ⟨_, hrc⟩ | hc
      · exact absurd hrc hne
      · exact ⟨hc.1, hc.2.1, hc.2.2.1⟩
    · rcases hc with ⟨hh, _⟩ | hc
      · rw [hh, h0] at h1
        exact absurd h1 (by simp)
      · exact hc.2.2.1
    · by_cases hj : j = i
      · subst hj
        rw [hA] at hia
        exact absurd hia (by simp)
      · rw [hph j, updF_ne _ _ _ _ hj] at hA'
        rw [hA] at hA'
        exact absurd hA' (by simp)

/-- A state with one call suspended on the pending handle, used to feed
the settlement step to the pending-handle theorem. -/
def stAwait : State where
  phase := fun j => if j = 0 then .mAwaitRefresh 5 else .entry
  handle := true
  refreshCount := 1
  fetchCount := fun j => if j = 0 then 1 else 0
  shouldCount := fun j => if j = 0 then 1 else 0
  byst := fun _ => false
  triggered := fun j => j == 0
  obsRefresh := fun _ => none
  fetchLog := [(0, 100)]

/-- Witness for claim C2: a concrete settlement step clears the handle
and leaves the awaiting call resumable with its transport counter
untouched. -/
theorem claim2_witness :
    ((step envThree stAwait .refreshSettle).getD stAwait).handle = false ∧
    isResumeP (((step envThree stAwait .refreshSettle).getD stAwait).phase 0)
      = true ∧
    ((step envThree stAwait .refreshSettle).getD stAwait).fetchCount 0 = 1 := by
  have hst : step envThree stAwait .refreshSettle =
      some ((step envThree stAwait .refreshSettle).getD stAwait) := by rfl
  have h := claim2_pending_handle envThree stAwait _ .refreshSettle hst
  have h3 := h.2.2.1 rfl
  have h4 := h3.2 0 (by rfl)
  exact ⟨h3.1, h4.1, by rw [h4.2]; rfl⟩

/-- Two calls; call 0 triggers a refresh that fails; call 1 is a
bystander whose own transport call also fails. -/
def envBystFail : Env where
  n := 2
  args := fun i => 50 + i
  fetchO := fun i _ => if i = 0 then .err 1 else .err 3
  should := fun e => e == 1
  refreshO := fun _ => .err 11

/-- Schedule where call 1 enters while call 0's refresh is pending. -/
def trBystFail : List Event :=
  [.start 0, .fetchSettle 0, .start 1, .refreshSettle, .resume 1,
   .fetchSettle 1]

/-- Claim C3 (original-error precedence).  Any main-branch invocation
whose first transport attempt failed with an auth-classified error e and
which observed the awaited refresh fail, finishes by rejecting with the
original transport failure e — not with the refresh failure — and issues
no further transport call. -/
theorem claim3_original_error (env : Env) (t : List Event) (s : State)
    (i e : Nat) (r : Outcome) (hrun : run env init t = some s)
    (hby : s.byst i = false) (hm : env.fetchO i 0 = .err e)
    (hsh : env.should e = true) (hob : s.obsRefresh i = some false)
    (hdone : s.phase i = .done r) :
    r = .err e ∧ s.fetchCount i = 1 := by
  have hci := reach_callInv env t s hrun i
  unfold callInv at hci
  rw [hdone] at hci
  simp only [callInvAt, doneInvAt] at hci
  rcases hci with h | h | h | h | h | h | h
  · obtain ⟨_, _, _, _, _, v, hm1, _⟩ := h
    rw [hm] at hm1
    exact absurd hm1 (by simp)
  · obtain ⟨_, _, _, _, _, e1, hm1, hsh1, _⟩ := h
    rw [hm] at hm1
    injection hm1 with he
    rw [← he] at hsh1
    rw [hsh] at hsh1
    exact absurd hsh1 (by simp)
  · obtain ⟨_, hfc, _, _, e1, hm1, _, hr⟩ := h
    rw [hm] at hm1
    injection hm1 with he
    rw [← he] at hr
    exact ⟨hr, hfc⟩
  · obtain ⟨_, _, _, hobf, _⟩ := h
    rw [hob] at hobf
    exact absurd hobf (by simp)
  · rw [hby] at h
    exact absurd h.1 (by simp)
  · rw [hby] at h
    exact absurd h.1 (by simp)
  · rw [hby] at h
    exact absurd h.1 (by simp)

/-- Witness for claim C3: one call, auth failure, failing refresh; the
call rejects with its original error 5 (the refresh error is 11), having
issued exactly one transport call. -/
theorem claim3_witness :
    ((run envRefreshFail init
      [.start 0, .fetchSettle 0, .refreshSettle, .resume 0]).getD init).phase 0
      = .done (.err 5) ∧
    ((run envRefreshFail init
      [.start 0, .fetchSettle 0, .refreshSettle, .resume 0]).getD init).fetchCount 0
      = 1 := by
  have hrun : run envRefreshFail init
      [.start 0, .fetchSettle 0, .refreshSettle, .resume 0] =
      some ((run envRefreshFail init
        [.start 0, .fetchSettle 0, .refreshSettle, .resume 0]).getD init) := by
    rfl
  have h := claim3_original_error envRefreshFail _ _ 0 5 (.err 5) hrun
    (by rfl) (by rfl) (by rfl) (by rfl) (by rfl)
  exact ⟨by rfl, h.2⟩

/-- Claim C4 (bystander isolation).  Any invocation that entered while a
refresh handle was pending and observed that refresh fail finishes with
the outcome of its own single transport call — issued with its own
argument pair — and never with the refresh failure. -/
theorem claim4_bystander_isolation (env : Env) (t : List Event) (s : State)
    (i : Nat) (r : Outcome) (hrun : run env init t = some s)
    (hby : s.byst i = true) (hob : s.obsRefresh i = some false)
    (hdone : s.phase i = .done r) :
    r = env.fetchO i 0 ∧ s.fetchCount i = 1 ∧
    (∀ p ∈ s.fetchLog, p.1 = i → p.2 = env.args i) := by
  have hlog := reach_logInv env t s hrun
  have hargs : ∀ p ∈ s.fetchLog, p.1 = i → p.2 = env.args i := by
    intro p hp hpi
    rw [hlog.1 p hp, hpi]
  have hci := reach_callInv env t s hrun i
  unfold callInv at hci
  rw [hdone] at hci
  simp only [callInvAt, doneInvAt] at hci
  rcases hci with h | h | h | h | h | h | h
  · rw [hby] at h
    exact absurd h.1 (by simp)
  · rw [hby] at h
    exact absurd h.1 (by simp)
  · rw [hby] at h
    exact absurd h.1 (by simp)
  · rw [hby] at h
    exact absurd h.1 (by simp)
  · obtain ⟨_, _, _, _, hobf, _⟩ := h
    rw [hob] at hobf
    exact absurd hobf (by simp)
  · exact ⟨h.2.2.2.2.2, h.2.1, hargs⟩
  · obtain ⟨_, _, _, _, hobf, _⟩ := h
    rw [hob] at hobf
    exact absurd hobf (by simp)

/-- Witness for claim C4: the bystander call 1, whose awaited refresh
failed (refresh error 11), rejects with its own transport failure 3 after
one transport call. -/
theorem claim4_witness :
    ((run envBystFail init trBystFail).getD init).phase 1
      = .done (.err 3) ∧
    ((run envBystFail init trBystFail).getD init).fetchCount 1 = 1 := by
  have hrun : run envBystFail init trBystFail =
      some ((run envBystFail init trBystFail).getD init) := by rfl
  have h := claim4_bystander_isolation envBystFail _ _ 1 (.err 3) hrun
    (by rfl) (by rfl) (by rfl)
  exact ⟨by rfl, h.2.1⟩

/-- Claim C5 (retry-on-success), counterexample to the claim as stated.
One call whose first transport attempt fails with error 5
(auth-classified) and whose refresh succeeds; the retry — the second
transport call — fails with the distinct error 7.  The claim says the
wrapped function propagates the second call's outcome even if it fails;
the code instead rejects with the original error 5 (the retry failure is
swallowed by the catch block that rethrows the original error). -/
theorem claim5_counterexample :
    (run envRetryFail init
      [.start 0, .fetchSettle 0, .refreshSettle, .resume 0, .fetchSettle 0]).map
      (fun s => (s.phase 0, s.fetchCount 0)) =
      some (.done (.err 5), 2) ∧
    envRetryFail.fetchO 0 1 = .err 7 ∧
    Outcome.err 5 ≠ Outcome.err 7 := by
  refine ⟨by rfl, by rfl, by decide⟩

/-- Claim C5 (retry-on-success), amended.  Any main-branch invocation
whose first transport attempt failed with an auth-classified error e and
which observed the awaited refresh succeed issues exactly one second
transport call, with the identical arguments as the first (its own
argument pair); if the second call succeeds, its value is the final
result; if the second call fails, the invocation rejects with the
original error e, not the retry failure (amendment forced by the
counterexample); no third transport call occurs. -/
theorem claim5_retry_amended (env : Env) (t : List Event) (s : State)
    (i e : Nat) (r : Outcome) (hrun : run env init t = some s)
    (hby : s.byst i = false) (hm : env.fetchO i 0 = .err e)
    (hsh : env.should e = true) (hob : s.obsRefresh i = some true)
    (hdone : s.phase i = .done r) :
    s.fetchCount i = 2 ∧
    (∀ v, env.fetchO i 1 = .ok v → r = .ok v) ∧
    (∀ e2, env.fetchO i 1 = .err e2 → r = .err e) ∧
    (∀ p ∈ s.fetchLog, p.1 = i → p.2 = env.args i) := by
  have hlog := reach_logInv env t s hrun
  have hargs : ∀ p ∈ s.fetchLog, p.1 = i → p.2 = env.args i := by
    intro p hp hpi
    rw [hlog.1 p hp, hpi]
  have hci := reach_callInv env t s hrun i
  unfold callInv at hci
  rw [hdone] at hci
  simp only [callInvAt, doneInvAt] at hci
  rcases hci with h | h | h | h | h | h | h
  · obtain ⟨_, _, _, _, _, v, hm1, _⟩ := h
    rw [hm] at hm1
    exact absurd hm1 (by simp)
  · obtain ⟨_, _, _, _, hobf, _⟩ := h
    rw [hob] at hobf
    exact absurd hobf (by simp)
  · obtain ⟨_, _, _, hobf, _⟩ := h
    rw [hob] at hobf
    exact absurd hobf (by simp)
  · obtain ⟨_, hfc, _, _, e1, hm1, _, hcase⟩ := h
    rw [hm] at hm1
    injection hm1 with he
    refine ⟨hfc, ?_, ?_, hargs⟩
    · intro v hv
      rcases hcase with ⟨v1, hv1, hr⟩ | ⟨e2, he2, hr⟩
      · rw [hv] at hv1
        injection hv1 with hvv
        rw [← hvv] at hr
        exact hr
      · rw [hv] at he2
        exact absurd he2 (by simp)
    · intro e2 he2
      rcases hcase with ⟨v1, hv1, hr⟩ | ⟨e3, he3, hr⟩
      · rw [he2] at hv1
        exact absurd hv1 (by simp)
      · rw [hr, ← he]
  · rw [hby] at h
    exact absurd h.1 (by simp)
  · rw [hby] at h
    exact absurd h.1 (by simp)
  · rw [hby] at h
    exact absurd h.1 (by simp)

/-- Witness for the amended claim C5: call 0 of the three-call scenario —
auth failure 10, refresh succeeds, retry returns 20 — finishes with the
retry's success value after exactly two transport calls. -/
theorem claim5_witness :
    ((run envThree init trThree).getD init).fetchCount 0 = 2 ∧
    ((run envThree init trThree).getD init).phase 0 = .done (.ok 20) := by
  have hrun : run envThree init trThree =
      some ((run envThree init trThree).getD init) := by rfl
  have h := claim5_retry_amended envThree _ _ 0 10 (.ok 20) hrun
    (by rfl) (by rfl) (by rfl) (by rfl) (by rfl)
  exact ⟨h.1, by rfl⟩

/-- One call whose transport call succeeds. -/
def envPlain : Env where
  n := 1
  args := fun i => i
  fetchO := fun _ _ => .ok 42
  should := fun _ => false
  refreshO := fun _ => .ok 0

/-- One call; the transport always fails with the non-auth error 5. -/
def envNoAuth : Env where
  n := 1
  args := fun i => i
  fetchO := fun _ _ => .err 5
  should := fun _ => false
  refreshO := fun _ => .ok 0

/-- Two calls; call 0 triggers a refresh that succeeds; the bystander
call 1's first transport call fails with the unclassified error 2 and its
second succeeds with 9. -/
def envByst : Env where
  n := 2
  args := fun i => i
  fetchO := fun i k => if i = 0 then (if k = 0 then .err 1 else .ok 8)
                       else (if k = 0 then .err 2 else .ok 9)
  should := fun e => e == 1
  refreshO := fun _ => .ok 0

/-- Schedule where the bystander call 1 enters while call 0's refresh is
pending, the refresh succeeds, and call 1's two transport calls settle. -/
def trByst : List Event :=
  [.start 0, .fetchSettle 0, .start 1, .refreshSettle, .resume 1,
   .fetchSettle 1, .fetchSettle 1]

/-- Claim C6 (pass-through).  Any invocation that entered with no refresh
pending (main branch) and whose transport call succeeds with value v
finishes with exactly that value, having invoked the transport exactly
once and the classifier never. -/
theorem claim6_pass_through (env : Env) (t : List Event) (s : State)
    (i v : Nat) (r : Outcome) (hrun : run env init t = some s)
    (hby : s.byst i = false) (hm : env.fetchO i 0 = .ok v)
    (hdone : s.phase i = .done r) :
    r = .ok v ∧ s.fetchCount i = 1 ∧ s.shouldCount i = 0 := by
  have hci := reach_callInv env t s hrun i
  unfold callInv at hci
  rw [hdone] at hci
  simp only [callInvAt, doneInvAt] at hci
  rcases hci with h | h | h | h | h | h | h
  · obtain ⟨_, hfc, hsc, _, _, v1, hm1, hr⟩ := h
    rw [hm] at hm1
    injection hm1 with hv
    rw [← hv] at hr
    exact ⟨hr, hfc, hsc⟩
  · obtain ⟨_, _, _, _, _, e1, hm1, _⟩ := h
    rw [hm] at hm1
    exact absurd hm1 (by simp)
  · obtain ⟨_, _, _, _, e1, hm1, _⟩ := h
    rw [hm] at hm1
    exact absurd hm1 (by simp)
  · obtain ⟨_, _, _, _, e1, hm1, _⟩ := h
    rw [hm] at hm1
    exact absurd hm1 (by simp)
  · rw [hby] at h
    exact absurd h.1 (by simp)
  · rw [hby] at h
    exact absurd h.1 (by simp)
  · rw [hby] at h
    exact absurd h.1 (by simp)

/-- Witness for claim C6: the single call returns the transport's success
value 42 unchanged after exactly one transport call. -/
theorem claim6_witness :
    ((run envPlain init [.start 0, .fetchSettle 0]).getD init).phase 0
      = .done (.ok 42) ∧
    ((run envPlain init [.start 0, .fetchSettle 0]).getD init).fetchCount 0
      = 1 := by
  have hrun : run envPlain init [.start 0, .fetchSettle 0] =
      some ((run envPlain init [.start 0, .fetchSettle 0]).getD init) := by rfl
  have h := claim6_pass_through envPlain _ _ 0 42 (.ok 42) hrun
    (by rfl) (by rfl) (by rfl)
  exact ⟨by rfl, h.2.1⟩

/-- On an environment whose classifier never returns true, no step can
install a handle or invoke `refreshToken`. -/
theorem step_should_false (env : Env) (s s' : State) (ev : Event)
    (hstep : step env s ev = some s') (hall : ∀ x, env.should x = false)
    (h : s.refreshCount = 0 ∧ s.handle = false) :
    s'.refreshCount = 0 ∧ s'.handle = false := by
  rcases step_shape env s s' ev hstep with
    ⟨_, hhd, _⟩ | ⟨_, i, p, _, _, hc⟩
  · rw [h.2] at hhd
    exact absurd hhd (by simp)
  · rcases hc with ⟨hh, hrc⟩ | ⟨_, _, _, e, hse⟩
    · rw [hrc, hh]
      exact h
    · rw [hall e] at hse
      exact absurd hse (by simp)

/-- On an environment whose classifier never returns true, every
reachable state has no pending handle and zero `refreshToken`
invocations. -/
theorem run_should_false (env : Env) (t : List Event) (s : State)
    (hrun : run env init t = some s) (hall : ∀ x, env.should x = false) :
    s.refreshCount = 0 ∧ s.handle = false := by
  have hgen : ∀ u (s0 s1 : State), run env s0 u = some s1 →
      s0.refreshCount = 0 ∧ s0.handle = false →
      s1.refreshCount = 0 ∧ s1.handle = false := by
    intro u
    induction u with
    | nil =>
      intro s0 s1 hr h
      simp only [run] at hr
      injection hr with hr
      subst hr
      exact h
    | cons ev v ih =>
      intro s0 s1 hr h
      simp only [run] at hr
      cases hst : step env s0 ev with
      | none => rw [hst] at hr; exact absurd hr (by simp)
      | some sm =>
        rw [hst] at hr
        exact ih sm s1 hr (step_should_false env s0 sm ev hst hall h)
  exact hgen t init s hrun ⟨rfl, rfl⟩

/-- Claim C7 (no spurious refresh).  First conjunct: any main-branch
invocation whose transport call fails with an error e that the classifier
rejects finishes by rejecting with exactly e, with the classifier invoked
exactly once for that call, exactly one transport call issued, and the
call never having installed a refresh (triggered flag false, so it never
invoked `refreshToken`).  Second conjunct, the spec's scenario: if the
classifier never accepts any error, no reachable state has a pending
handle or any `refreshToken` invocation at all. -/
theorem claim7_no_spurious_refresh (env : Env) (t : List Event) (s : State)
    (hrun : run env init t = some s) :
    (∀ i e r, s.byst i = false → env.fetchO i 0 = .err e →
      env.should e = false → s.phase i = .done r →
      r = .err e ∧ s.shouldCount i = 1 ∧ s.fetchCount i = 1 ∧
        s.triggered i = false) ∧
    ((∀ x, env.should x = false) →
      s.refreshCount = 0 ∧ s.handle = false) := by
  refine ⟨fun i e r hby hm hsh hdone => ?_,
    fun hall => run_should_false env t s hrun hall⟩
  have hci := reach_callInv env t s hrun i
  unfold callInv at hci
  rw [hdone] at hci
  simp only [callInvAt, doneInvAt] at hci
  rcases hci with h | h | h | h | h | h | h
  · obtain ⟨_, _, _, _, _, v, hm1, _⟩ := h
    rw [hm] at hm1
    exact absurd hm1 (by simp)
  · obtain ⟨_, hfc, hsc, htr, _, e1, hm1, hsh1, hr⟩ := h
    rw [hm] at hm1
    injection hm1 with he
    rw [← he] at hr
    exact ⟨hr, hsc, hfc, htr⟩
  · obtain ⟨_, _, _, _, e1, hm1, hsh1, _⟩ := h
    rw [hm] at hm1
    injection hm1 with he
    rw [← he] at hsh1
    rw [hsh] at hsh1
    exact absurd hsh1 (by simp)
  · obtain ⟨_, _, _, _, e1, hm1, hsh1, _⟩ := h
    rw [hm] at hm1
    injection hm1 with he
    rw [← he] at hsh1
    rw [hsh] at hsh1
    exact absurd hsh1 (by simp)
  · rw [hby] at h
    exact absurd h.1 (by simp)
  · rw [hby] at h
    exact absurd h.1 (by simp)
  · rw [hby] at h
    exact absurd h.1 (by simp)

/-- Witness for claim C7: the call rejects with the non-auth error 5
after one transport call, one classifier call, and no refresh. -/
theorem claim7_witness :
    ((run envNoAuth init [.start 0, .fetchSettle 0]).getD init).phase 0
      = .done (.err 5) ∧
    ((run envNoAuth init [.start 0, .fetchSettle 0]).getD init).shouldCount 0
      = 1 ∧
    ((run envNoAuth init [.start 0, .fetchSettle 0]).getD init).refreshCount
      = 0 := by
  have hrun : run envNoAuth init [.start 0, .fetchSettle 0] =
      some ((run envNoAuth init [.start 0, .fetchSettle 0]).getD init) := by
    rfl
  have h := claim7_no_spurious_refresh envNoAuth _ _ hrun
  have h1 := h.1 0 5 (.err 5) (by rfl) (by rfl) (by rfl) (by rfl)
  have h2 := h.2 (fun x => rfl)
  exact ⟨by rfl, h1.2.1, h2.1⟩

/-- Claim C8, counterexample to the claim as stated.  The bystander call
1 enters while call 0's refresh is pending; the refresh succeeds; call
1's post-refresh transport call fails with error 2 — yet that failure
does not propagate: the code's catch block issues a second transport
call, which succeeds with 9, and the call resolves with 9.  (The part of
the claim that holds — the classifier count is zero — is the amended
theorem; this run refutes the claim's assertion that a bystander's
post-refresh transport failure propagates.) -/
theorem claim8_counterexample :
    (run envByst init trByst).map
      (fun s => (s.byst 1, s.obsRefresh 1, s.phase 1, s.fetchCount 1,
        s.shouldCount 1)) =
      some (true, some true, .done (.ok 9), 2, 0) ∧
    envByst.fetchO 1 0 = .err 2 := by
  refine ⟨by rfl, by rfl⟩

/-- Claim C8 (bystander never classified), amended.  Any invocation that
entered while a refresh handle was pending never invokes
`shouldRefreshToken` (its classifier count is zero in every reachable
state), and every failure such a call surfaces is a failure of one of its
own transport calls, never the refresh failure and never classified.
Amendment forced by the counterexample: after a successful refresh a
bystander's first transport failure does not itself propagate — the call
issues one more transport call and surfaces that call's outcome. -/
theorem claim8_bystander_unclassified (env : Env) (t : List Event)
    (s : State) (hrun : run env init t = some s) :
    ∀ i, s.byst i = true →
      s.shouldCount i = 0 ∧
      (∀ r, s.phase i = .done r → ∀ x, r = .err x →
        ∃ k, k < s.fetchCount i ∧ env.fetchO i k = .err x) := by
  intro i hby
  have hci := reach_callInv env t s hrun i
  unfold callInv at hci
  constructor
  · cases hq : s.phase i <;> rw [hq] at hci <;>
      simp only [callInvAt, doneInvAt] at hci
    case entry =>
      rw [hby] at hci
      exact absurd hci.2.2.1 (by simp)
    case bAwaitRefresh => exact hci.2.2.2.1
    case bResume => exact hci.2.2.1
    case bFetchTry => exact hci.2.2.1
    case bFetchCatch => exact hci.2.1
    case mFetchFirst =>
      rw [hby] at hci
      exact absurd hci.1 (by simp)
    case mAwaitRefresh =>
      rw [hby] at hci
      exact absurd hci.2.1 (by simp)
    case mResume =>
      rw [hby] at hci
      exact absurd hci.1 (by simp)
    case mRetry =>
      rw [hby] at hci
      exact absurd hci.1 (by simp)
    case done =>
      rcases hci with h | h | h | h | h | h | h
      · rw [hby] at h
        exact absurd h.1 (by simp)
      · rw [hby] at h
        exact absurd h.1 (by simp)
      · rw [hby] at h
        exact absurd h.1 (by simp)
      · rw [hby] at h
        exact absurd h.1 (by simp)
      · exact h.2.2.1
      · exact h.2.2.1
      · exact h.2.2.1
  · intro r hdone x hrx
    rw [hdone] at hci
    simp only [callInvAt, doneInvAt] at hci
    rcases hci with h | h | h | h | h | h | h
    · rw [hby] at h
      exact absurd h.1 (by simp)
    · rw [hby] at h
      exact absurd h.1 (by simp)
    · rw [hby] at h
      exact absurd h.1 (by simp)
    · rw [hby] at h
      exact absurd h.1 (by simp)
    · obtain ⟨_, _, _, _, _, v, _, hr⟩ := h
      rw [hrx] at hr
      exact absurd hr (by simp)
    · obtain ⟨_, hfc, _, _, _, hr⟩ := h
      rw [hrx] at hr
      refine ⟨0, by omega, hr.symm⟩
    · obtain ⟨_, hfc, _, _, _, _, hr⟩ := h
      rw [hrx] at hr
      refine ⟨1, by omega, hr.symm⟩

/-- Witness for the amended claim C8: the bystander call 1 of the
failing-refresh scenario has classifier count zero, and its surfaced
failure 3 is its own transport call's failure. -/
theorem claim8_witness :
    ((run envBystFail init trBystFail).getD init).shouldCount 1 = 0 ∧
    envBystFail.fetchO 1 0 = .err 3 := by
  have hrun : run envBystFail init trBystFail =
      some ((run envBystFail init trBystFail).getD init) := by rfl
  have h := claim8_bystander_unclassified envBystFail _ _ hrun 1 (by rfl)
  have h2 := h.2 (.err 3) (by rfl) 3 rfl
  obtain ⟨k, hk, hke⟩ := h2
  exact ⟨h.1, by rfl⟩

/-! Embedding of the JSON transport adapter `fetchJSON` (src/fetchJSON.ts).
Request options are modelled as a record with the body, a string-keyed
header object (as an association list read through lookup), and the
method standing for the remaining recognized options; responses as a
record of ok flag, status, content-type header and raw text; JSON.parse
is an oracle `jparse` returning the parsed document (abstracted) or
nothing when the text is not valid JSON. -/

/-- Request options: body, headers object, and method (representative of
the other pass-through fields). -/
structure ReqInit where
  body : Option String
  headers : List (String × String)
  method : Option String
deriving DecidableEq, Repr

/-- The default header object fetchJSON merges under the caller's options
when a body is present. -/
def defaultJSONHeaders : List (String × String) :=
  [("Content-Type", "application/json")]

/-- lodash merge of two string-keyed objects, lookup-wise: caller entries
override defaults, defaults without a caller entry are retained. -/
def mergeHeaders (d o : List (String × String)) : List (String × String) :=
  d.filter (fun p => (o.lookup p.1).isNone) ++ o

/-- The options fetchJSON passes to fetch: the caller's options unchanged
when there is no body, otherwise the caller's options deep-merged over
the default Content-Type header. -/
def fetchOptionsOf (options : ReqInit) : ReqInit :=
  match options.body with
  | none => options
  | some _ =>
    { options with headers := mergeHeaders defaultJSONHeaders options.headers }

theorem lookup_filter_none {β : Type} (d o : List (String × β)) (k : String)
    (hv : (o.lookup k).isSome = true) :
    (d.filter (fun p => (o.lookup p.1).isNone)).lookup k = none := by
  induction d with
  | nil => rfl
  | cons p d ih =>
    by_cases hp : (o.lookup p.1).isNone = true
    · rw [List.filter_cons_of_pos (by simpa using hp)]
      have hne : (k == p.1) = false := by
        rcases hbe : k == p.1 with _ | _
        · rfl
        · have hk : k = p.1 := by
            have := eq_of_beq hbe
            exact this
          rw [← hk] at hp
          rw [Option.isNone_iff_eq_none] at hp
          rw [hp] at hv
          exact absurd hv (by simp)
      simp only [List.lookup, hne]
      exact ih
    · rw [List.filter_cons_of_neg (by simpa using hp)]
      exact ih

theorem lookup_append_left_none {β : Type} (l1 l2 : List (String × β))
    (k : String) (h : l1.lookup k = none) :
    (l1 ++ l2).lookup k = l2.lookup k := by
  induction l1 with
  | nil => rfl
  | cons p l1 ih =>
    simp only [List.lookup, List.cons_append] at h ⊢
    rcases hbe : k == p.1 with _ | _
    · rw [hbe] at h
      simp only [List.lookup, hbe]
      exact ih h
    · rw [hbe] at h
      exact absurd h (by simp)

/-- Claim C9 (fetchJSON option handling).  When the caller's options have
no body, fetchJSON passes the options object to fetch completely
unchanged.  When a body is present, it passes the options deep-merged
over the default header object: the body and the other fields are the
caller's, every caller-supplied header is preserved (so a caller-supplied
Content-Type overrides the default), and the default
Content-Type: application/json only appears when the caller supplied no
Content-Type of their own. -/
theorem claim9_fetchjson_options (options : ReqInit) :
    (options.body = none → fetchOptionsOf options = options) ∧
    (∀ b, options.body = some b →
      (fetchOptionsOf options).body = options.body ∧
      (fetchOptionsOf options).method = options.method ∧
      (∀ k v, options.headers.lookup k = some v →
        (fetchOptionsOf options).headers.lookup k = some v) ∧
      (options.headers.lookup "Content-Type" = none →
        (fetchOptionsOf options).headers.lookup "Content-Type" =
          some "application/json")) := by
  constructor
  · intro hb
    unfold fetchOptionsOf
    rw [hb]
  · intro b hb
    unfold fetchOptionsOf
    rw [hb]
    refine ⟨rfl, rfl, ?_, ?_⟩
    · intro k v hkv
      unfold mergeHeaders
      dsimp only
      rw [lookup_append_left_none]
      · exact hkv
      · exact lookup_filter_none defaultJSONHeaders options.headers k
          (by rw [hkv]; rfl)
    · intro hnone
      unfold mergeHeaders defaultJSONHeaders
      dsimp only
      rw [List.filter_cons_of_pos (by simp [hnone])]
      rfl

/-- Options with a body, a caller Content-Type and an extra header. -/
def optsWithBody : ReqInit where
  body := some "b"
  headers := [("Content-Type", "text/plain"), ("X-Auth", "tok")]
  method := some "POST"

/-- Options without a body. -/
def optsNoBody : ReqInit where
  body := none
  headers := [("X-Auth", "tok")]
  method := some "GET"

/-- Witness for claim C9: without a body the options pass through
unchanged; with a body the caller's Content-Type text/plain overrides the
default and the extra caller header is preserved. -/
theorem claim9_witness :
    fetchOptionsOf optsNoBody = optsNoBody ∧
    (fetchOptionsOf optsWithBody).headers.lookup "Content-Type"
      = some "text/plain" ∧
    (fetchOptionsOf optsWithBody).headers.lookup "X-Auth" = some "tok" := by
  have h0 := (claim9_fetchjson_options optsNoBody).1 rfl
  have h := (claim9_fetchjson_options optsWithBody).2 "b" rfl
  exact ⟨h0, h.2.2.1 "Content-Type" "text/plain" (by rfl),
    h.2.2.1 "X-Auth" "tok" (by rfl)⟩

/-- Parsed response body: null (empty JSON text), a parsed JSON document
(abstracted by the oracle's value), or the raw text of a non-JSON
response. -/
inductive BodyVal where
  | nullBody
  | jsonBody (j : Nat)
  | strBody (t : String)
deriving DecidableEq, Repr

/-- Response as fetchJSON consumes it: ok flag, status code, content-type
header and body text. -/
structure Resp where
  ok : Bool
  status : Nat
  contentType : Option String
  text : String
deriving DecidableEq, Repr

/-- The two rejection values fetchJSON can produce itself: the parse
error thrown by tryParseJSON, and the ResponseError carrying the status,
the response object and the parsed body. -/
inductive FetchErr where
  | parseFailure (t : String)
  | responseError (status : Nat) (response : Resp) (body : BodyVal)
deriving DecidableEq, Repr

/-- Whether a rejection value is a ResponseError. -/
def isResponseError : FetchErr → Bool
  | .responseError _ _ _ => true
  | .parseFailure _ => false

/-- Whether the first character list is a prefix of the second. -/
def chListPre : List Char → List Char → Bool
  | [], _ => true
  | _ :: _, [] => false
  | a :: as, b :: bs => a == b && chListPre as bs

/-- Whether the first character list occurs as a contiguous substring of
the second. -/
def chListSub (n : List Char) : List Char → Bool
  | [] => n.isEmpty
  | b :: bs => chListPre n (b :: bs) || chListSub n bs

/-- The content-type check contentType?.includes('json') ?? false. -/
def ctIncludesJson : Option String → Bool
  | none => false
  | some s => chListSub "json".data s.data

/-- tryParseJSON: empty text parses to null, otherwise JSON.parse (the
oracle); an unparseable text throws the descriptive parse error. -/
def tryParseJSON (jparse : String → Option Nat) (json : String) :
    Except FetchErr BodyVal :=
  if json = "" then .ok .nullBody
  else
    match jparse json with
    | some j => .ok (.jsonBody j)
    | none => .error (.parseFailure json)

/-- getResponseBody: parse as JSON when the content type includes json,
otherwise return the raw text. -/
def getResponseBody (jparse : String → Option Nat) (response : Resp) :
    Except FetchErr BodyVal :=
  if ctIncludesJson response.contentType then tryParseJSON jparse response.text
  else .ok (.strBody response.text)

/-- checkStatus: an ok response yields the response-and-body pair, a
non-ok response throws a ResponseError carrying status, response and
body. -/
def checkStatus (response : Resp) (body : BodyVal) :
    Except FetchErr (Resp × BodyVal) :=
  if response.ok then .ok (response, body)
  else .error (.responseError response.status response body)

/-- fetchJSON after the transport returned a response: extract the body,
then check the status. -/
def fetchJSONResult (jparse : String → Option Nat) (response : Resp) :
    Except FetchErr (Resp × BodyVal) :=
  match getResponseBody jparse response with
  | .ok body => checkStatus response body
  | .error e => .error e

/-- Any rejection getResponseBody produces is a parse failure, never a
ResponseError. -/
theorem getResponseBody_error (jparse : String → Option Nat) (resp : Resp)
    (e : FetchErr) (h : getResponseBody jparse resp = .error e) :
    ∃ t, e = .parseFailure t := by
  unfold getResponseBody tryParseJSON at h
  split at h
  · split at h
    · exact absurd h (by simp)
    · split at h
      · exact absurd h (by simp)
      · injection h with he
        exact ⟨resp.text, he.symm⟩
  · exact absurd h (by simp)

/-- A JSON oracle that rejects every text. -/
def jparseNone : String → Option Nat := fun _ => none

/-- A non-ok JSON response whose body text is not valid JSON. -/
def respBad : Resp where
  ok := false
  status := 500
  contentType := some "application/json"
  text := "x"

/-- An ok JSON response with empty body text. -/
def respOkEmpty : Resp where
  ok := true
  status := 200
  contentType := some "application/json"
  text := ""

/-- A non-ok response without JSON content type. -/
def respNotOk : Resp where
  ok := false
  status := 500
  contentType := none
  text := "oops"

/-- Claim C10, counterexample to the claim as stated.  A response with
ok = false whose JSON-content-typed body text is not valid JSON makes
fetchJSON reject with the parse Error — not with a ResponseError — so
rejects-with-ResponseError does not follow from ok being false: the
if-and-only-if fails. -/
theorem claim10_counterexample :
    fetchJSONResult jparseNone respBad = .error (.parseFailure "x") ∧
    respBad.ok = false ∧
    isResponseError (.parseFailure "x") = false := by
  refine ⟨by rfl, rfl, rfl⟩

/-- Claim C10 (checkStatus behaviour), amended.  Whenever the body
extraction succeeds (amendment forced by the counterexample: a
JSON-content-typed response whose non-empty text fails to parse rejects
with a parse Error before any status check), fetchJSON returns the
response-and-body pair if and only if the response is ok, and rejects
with a ResponseError carrying exactly the response's status, the response
object and the parsed body if and only if the response is not ok;
conversely any ResponseError rejection implies the response was not ok;
and a JSON-content-typed response with empty text yields the null body. -/
theorem claim10_check_status (jparse : String → Option Nat) (resp : Resp) :
    (∀ body, getResponseBody jparse resp = .ok body →
      ((resp.ok = true → fetchJSONResult jparse resp = .ok (resp, body)) ∧
       (resp.ok = false → fetchJSONResult jparse resp =
         .error (.responseError resp.status resp body)))) ∧
    (∀ e, fetchJSONResult jparse resp = .error e →
      isResponseError e = true → resp.ok = false) ∧
    (ctIncludesJson resp.contentType = true → resp.text = "" →
      getResponseBody jparse resp = .ok .nullBody) := by
  refine ⟨?_, ?_, ?_⟩
  · intro body hget
    unfold fetchJSONResult
    rw [hget]
    unfold checkStatus
    constructor
    · intro hok
      rw [hok]
      rfl
    · intro hok
      rw [hok]
      rfl
  · intro e he hre
    unfold fetchJSONResult at he
    cases hget : getResponseBody jparse resp with
    | ok body =>
      rw [hget] at he
      unfold checkStatus at he
      cases hok : resp.ok with
      | true =>
        rw [hok] at he
        exact absurd he (by simp)
      | false => rfl
    | error e0 =>
      rw [hget] at he
      injection he with he0
      obtain ⟨t, ht⟩ := getResponseBody_error jparse resp e0 hget
      rw [← he0, ht] at hre
      exact absurd hre (by simp [isResponseError])
  · intro hct htext
    unfold getResponseBody
    rw [hct, htext]
    rfl

/-- Witness for the amended claim C10: an ok JSON response with empty
text returns the pair with the null body; a non-ok response rejects with
the ResponseError carrying status 500, the response and its text body. -/
theorem claim10_witness :
    fetchJSONResult jparseNone respOkEmpty = .ok (respOkEmpty, .nullBody) ∧
    fetchJSONResult jparseNone respNotOk =
      .error (.responseError 500 respNotOk (.strBody "oops")) := by
  have h1 := (claim10_check_status jparseNone respOkEmpty).1 .nullBody (by rfl)
  have h2 := (claim10_check_status jparseNone respNotOk).1 (.strBody "oops")
    (by rfl)
  exact ⟨h1.1 rfl, h2.2 rfl⟩

end RF
